import Mathlib

/-!
Verification of the Ren'Py updater core (`updater.py`) against its
natural-language specification.

The file is a shallow embedding of `updater.py`.  Pure computations
(`check_versions`, the zsync command line, the progress-line protocol,
the canonical archive records built by `prepare`, the SHA-256 chunking
loop of `download`) are translated into Lean functions.  The stateful
worker (`Updater.update` / `Updater.run`) is modelled as a function from
an environment `Env` (the outside world: manifest contents, disk
contents, the delta tool's behaviour, the user's proceed/cancel choice)
to a final field record `UpdSt` that also accumulates an explicit trace
of observable effects (`Ev`): filesystem writes, spawned processes,
assignments to the observable `state` and `progress` fields, log lines,
and the `exec` of a `monkeypatch` payload.

Modelling notes, all marked again at the definitions they concern:
* Python floats are modelled as exact fractions (`Frac`); float `==`
  and `<=` are value comparisons (`Frac.veq`, `Frac.le`).
* `hashlib.sha256` itself is not re-implemented; the hash is an
  arbitrary function `Env.hashFn` over the byte list fed to it, which
  is exactly what the digest comparison in `download` depends on.  The
  chunked feeding loop is embedded (`read_chunks`, `stream_read`).
* `json.load` is an arbitrary function `Env.jsonParse` from bytes to an
  optional parsed snapshot (`none` models a parse error).
* Cancellation points inside `prepare`/`download` are not exercised:
  the environment only chooses proceed-vs-cancel at the
  `UPDATE AVAILABLE` wait, which is the only cancellation any claim
  under verification depends on; `run`'s exception handler is still
  total over all three exception kinds.
* The `run.sh` source-checkout guard and the log-file object are
  abstracted into the `Env.log_ok` / construction preconditions; no
  claim concerns them.
-/

set_option linter.unusedVariables false

namespace Updater

/-- Exact model of the Python float values the updater computes with
(progress percentages and fractions).  The denominator is kept positive
by every operation used below, so cross-multiplication comparisons are
sign-correct. -/
structure Frac where
  num : Int
  den : Nat
deriving DecidableEq, Repr

/-- Float literal `0.0`. -/
def Frac.zero : Frac := ⟨0, 1⟩

/-- Float literal `1.0`. -/
def Frac.one : Frac := ⟨1, 1⟩

/-- Python float equality `a == b` (value equality). -/
def Frac.veq (a b : Frac) : Bool := a.num * (b.den : Int) == b.num * (a.den : Int)

/-- Python float comparison `a <= b` (value comparison). -/
def Frac.le (a b : Frac) : Bool := decide (a.num * (b.den : Int) ≤ b.num * (a.den : Int))

/-- Python float subtraction `a - b`. -/
def Frac.sub (a b : Frac) : Frac :=
  ⟨a.num * (b.den : Int) - b.num * (a.den : Int), a.den * b.den⟩

/-- Python float division `a / b` (the divisor is nonzero at every use
site below; the sign is moved into the numerator to keep `den` a
natural number). -/
def Frac.divBy (a b : Frac) : Frac :=
  if 0 ≤ b.num then ⟨a.num * (b.den : Int), a.den * b.num.natAbs⟩
  else ⟨-(a.num * (b.den : Int)), a.den * b.num.natAbs⟩

/-- `x / 100.0` for the raw percentage of a `PROGRESS` line. -/
def Frac.div100 (a : Frac) : Frac := ⟨a.num, a.den * 100⟩

/-- `1.0 * i / n` for natural `i`, `n` (progress of loop iterations). -/
def Frac.ofDiv (i n : Nat) : Frac := ⟨i, n⟩

/-- The rational value denoted by a `Frac` (bridge to mathlib's `ℚ`,
used to certify that `Frac.le` really is value comparison). -/
def Frac.toRat (a : Frac) : ℚ := Rat.divInt a.num a.den

/-- Lexicographic comparison of code-point lists: the order Python's
`list.sort` uses on `str`. -/
def lexLe : List Char → List Char → Bool
  | [], _ => true
  | _ :: _, [] => false
  | a :: as, b :: bs => if a = b then lexLe as bs else decide (a < b)

/-- Python `str` comparison `a <= b`. -/
def pyle (a b : String) : Bool := lexLe a.data b.data

/-- Stable insertion into a sorted list (on `String` all equal elements
are identical, so any stable ascending sort models `list.sort`). -/
def insort (x : String) : List String → List String
  | [] => [x]
  | y :: ys => if pyle x y then x :: y :: ys else y :: insort x ys

/-- Python `list.sort()` on a list of strings (ascending, by code
points). -/
def pysorted (l : List String) : List String := l.foldr insort []

/-- Python `s.startswith(pre)`. -/
def strStartsWith (s pre : String) : Bool := pre.data.isPrefixOf s.data

/-- Python `s.endswith(suf)`. -/
def strEndsWith (s suf : String) : Bool := suf.data.isSuffixOf s.data

/-- Python `s.split("/")` (on code-point lists). -/
def split_slash : List Char → List (List Char)
  | [] => [[]]
  | c :: rest =>
      let r := split_slash rest
      if c = '/' then [] :: r
      else
        match r with
        | [] => [[c]]
        | h :: t => (c :: h) :: t

/-- Python `"/".join(parts)` (on code-point lists). -/
def join_slash : List (List Char) → List Char
  | [] => []
  | [x] => x
  | x :: rest => x ++ '/' :: join_slash rest

/-- `p` lies strictly inside directory `dir` (i.e. `p` starts with
`dir ++ "/"`). -/
def inside (dir p : String) : Bool := (dir ++ "/").data.isPrefixOf p.data

/-- One manifest entry, as found both in the installed snapshot
(`current.json`) and in the server manifest (`updates.json`).  The
underlying JSON objects are dynamic dictionaries; snapshot entries
simply never have their `digest`/`url` fields read. -/
structure ModEntry where
  version : String
  files : List String
  directories : List String
  xbit : List String
  digest : String
  url : String
deriving DecidableEq, Repr, Inhabited

/-- A parsed JSON manifest/snapshot: module name to entry, in dict
order. -/
abbrev Snapshot := List (String × ModEntry)

/-- Python dict lookup `d[k]` / `k in d` on a snapshot. -/
def alookup (l : Snapshot) (k : String) : Option ModEntry :=
  match l with
  | [] => none
  | (a, b) :: rest => if a = k then some b else alookup rest k

/-- Python dict assignment `d[k] = v` on a snapshot. -/
def aset (l : Snapshot) (k : String) (v : ModEntry) : Snapshot :=
  match l with
  | [] => [(k, v)]
  | (a, b) :: rest => if a = k then (k, v) :: rest else (a, b) :: aset rest k v

/-- One line read from the delta tool's merged stdout/stderr.  A
`PROGRESS <float>` line carries its parsed float; every other line is
opaque (`other`).  Stream end (`if not l: break`) is the end of the
list. -/
inductive ZLine where
  | progress (raw : Frac)
  | endprogress
  | other (s : String)
deriving DecidableEq, Repr

/-- The type field of a tar entry. -/
inductive TarType where
  | dir
  | reg
  | unknown (t : Nat)
deriving DecidableEq, Repr

/-- One entry of a downloaded `.update.new` archive, as `unpack`
iterates over it. -/
structure TarEntry where
  name : String
  etype : TarType
  content : List Nat
  mode : Nat
deriving DecidableEq, Repr

/-- What the disk holds at a resolved path (as far as `prepare` and
`move_files` inspect it: `os.path.exists` plus `TarInfo.isreg`). -/
inductive FileStat where
  | missing
  | regular (size : Nat)
  | irregular
deriving DecidableEq, Repr

/-- An observable effect of the update session: a filesystem mutation,
a spawned subprocess, an assignment to the UI-observable `state` or
`progress` field, a line written to the update log, or the `exec` of a
manifest `monkeypatch` payload. -/
inductive Ev where
  | write (p : String)
  | unlink (p : String)
  | rmdir (p : String)
  | rename (src dst : String)
  | mkdir (p : String)
  | chmod (p : String)
  | spawn (cmd : List String)
  | execCode (code : String)
  | setState (s : String)
  | setProgress (p : Option Frac)
  | logLine (l : ZLine)
deriving DecidableEq, Repr

/-- The environment an update session runs in: everything the code
observes from outside. -/
structure Env where
  /-- `base`, already made absolute. -/
  base : String
  /-- the URL of `updates.json`. -/
  url : String
  /-- the `force` constructor flag. -/
  force : Bool
  /-- `update/current.json` exists (`load_state`). -/
  current_exists : Bool
  /-- the parsed installed snapshot (`self.current_state`). -/
  current_state : Snapshot
  /-- `test_write`'s write of `test.txt` succeeds. -/
  can_write : Bool
  /-- the update log could be opened (`self.log` is not None). -/
  log_ok : Bool
  /-- the parsed server manifest (`self.updates`), module entries only. -/
  updates : Snapshot
  /-- the `monkeypatch` member of the parsed manifest, if present. -/
  monkeypatch : Option String
  /-- the user's choice at the `UPDATE AVAILABLE` wait: `true` for
  `proceed()`, `false` for `cancel()`. -/
  proceeded : Bool
  /-- what the disk holds at an absolute path. -/
  disk : String → FileStat
  /-- the lines the delta tool prints when run for a module. -/
  tool_lines : String → List ZLine
  /-- the output file `<module>.update.new` exists after the tool
  exits. -/
  tool_out_exists : String → Bool
  /-- the bytes of the downloaded `<module>.update.new`. -/
  tool_content : String → List Nat
  /-- the parsed entries of the downloaded archive for a module. -/
  archive : String → List TarEntry
  /-- `hashlib.sha256(∙).hexdigest()` as a function of all bytes fed
  through `update`. -/
  hashFn : List Nat → String
  /-- `json.load` on a byte string: `none` is a parse failure. -/
  jsonParse : List Nat → Option Snapshot

/-- `self.updatedir = os.path.join(self.base, "update")`. -/
def updatedir (env : Env) : String := env.base ++ "/update"

/-- `os.path.join(self.updatedir, fn)`. -/
def ud_file (env : Env) (fn : String) : String := updatedir env ++ "/" ++ fn

/-- `Updater.update_filename`: the update filename for a module. -/
def update_filename (env : Env) (module : String) (new : Bool) : String :=
  let rv := ud_file env (module ++ ".update")
  if new then rv ++ ".new" else rv

/-- The macOS `.app` detection of `Updater.__init__`: if `base` splits
as `<something>.app/Contents/Resources/autorun`, the app directory is
`"/".join(splitbase[:-3])`. -/
def mac_app (base : String) : Option String :=
  let splitbase := split_slash base.data
  match splitbase.reverse with
  | autorun :: resources :: contents :: appdir :: _ =>
      if autorun = "autorun".data ∧ resources = "Resources".data ∧
          contents = "Contents".data ∧ ".app".data.isSuffixOf appdir then
        some (String.mk (join_slash (splitbase.take (splitbase.length - 3))))
      else none
  | _ => none

/-- `Updater.path`: converts a logical manifest name to a path on
disk. -/
def path (env : Env) (name : String) : String :=
  match mac_app env.base with
  | some app =>
      match split_slash name.data with
      | first :: rest =>
          if ".app".data.isSuffixOf first then
            app ++ "/" ++ String.mk (join_slash rest)
          else env.base ++ "/" ++ name
      | [] => env.base ++ "/" ++ name
  | none => env.base ++ "/" ++ name

/-- The mutable fields of the `Updater` object (the UI-observable
state) together with the accumulated effect trace and the session's
working data. -/
structure UpdSt where
  state : String
  message : Option String
  progress : Option Frac
  can_cancel : Bool
  can_proceed : Bool
  events : List Ev
  modules : List String
  new_state : Snapshot
  moves : List String
  saved : Option Snapshot
deriving DecidableEq, Repr

/-- The field values `Updater.__init__` sets up. -/
def init_st : UpdSt :=
  { state := "CHECKING", message := none, progress := none, can_cancel := true,
    can_proceed := false, events := [], modules := [], new_state := [],
    moves := [], saved := none }

/-- Record one observable effect. -/
def emit (st : UpdSt) (e : Ev) : UpdSt := { st with events := st.events ++ [e] }

/-- An assignment to `self.state`. -/
def set_state (st : UpdSt) (s : String) : UpdSt :=
  { emit st (.setState s) with state := s }

/-- An assignment to `self.progress`. -/
def set_progress (st : UpdSt) (p : Option Frac) : UpdSt :=
  { emit st (.setProgress p) with progress := p }

/-- The three exception kinds `Updater.run` distinguishes:
`UpdateCancelled`, `UpdateError`, and any other `Exception` (carrying
`unicode(e)`). -/
inductive UpdExc where
  | cancelled
  | updateError (msg : String)
  | otherExc (msg : String)
deriving DecidableEq, Repr

/-- `Updater.load_state`: fails when `update/current.json` is absent;
reading mutates nothing. -/
def load_state (env : Env) (st : UpdSt) : Except (UpdExc × UpdSt) UpdSt :=
  if env.current_exists then .ok st
  else .error (.updateError
    "Either this project does not support updating, or the update status file was deleted.", st)

/-- `Updater.test_write`: writes and unlinks `test.txt` in the update
directory, then checks the log handle. -/
def test_write (env : Env) (st : UpdSt) : Except (UpdExc × UpdSt) UpdSt :=
  if env.can_write then
    let st := emit st (.write (ud_file env "test.txt"))
    let st := emit st (.unlink (ud_file env "test.txt"))
    if env.log_ok then .ok st
    else .error (.updateError
      "This account does not have permission to write the update log.", st)
  else .error (.updateError
    "This account does not have permission to perform an update.", st)

/-- `Updater.check_updates`: downloads `updates.json` into the update
directory, parses it (the parsed map is `env.updates`), and — when the
manifest carries a `monkeypatch` member — `exec`s its content. -/
def check_updates (env : Env) (st : UpdSt) : UpdSt :=
  let st := emit st (.write (ud_file env "updates.json"))
  match env.monkeypatch with
  | some code => emit st (.execCode code)
  | none => st

/-- `Updater.check_versions`: the modules that are in both the
installed snapshot and the server manifest and out of date (or all of
the common ones, under `force`). -/
def check_versions (force : Bool) (current_state updates : Snapshot) : List String :=
  match current_state with
  | [] => []
  | (name, data) :: rest =>
      match alookup updates name with
      | none => check_versions force rest updates
      | some u =>
          if data.version == u.version && !force then
            check_versions force rest updates
          else
            name :: check_versions force rest updates

/-- The entry list `prepare` walks: `files + directories`, sorted, then
the appended `update` and `update/current.json`. -/
def prepare_all (state : ModEntry) : List String :=
  pysorted (state.files ++ state.directories) ++ ["update", "update/current.json"]

/-- One canonicalized record of the seed archive `prepare` writes. -/
structure TarRecord where
  name : String
  isdir : Bool
  size : Nat
  uid : Nat
  gid : Nat
  mtime : Nat
  uname : String
  gname : String
  mode : Nat
deriving DecidableEq, Repr

/-- The loop body of `Updater.prepare` for one entry name: `none` when
the entry is skipped (a listed file missing on disk, or present but not
a regular file), otherwise the canonicalized record (`directories` here
is the entry's directory set already extended with `update`). -/
def prepare_record_of (env : Env) (state : ModEntry) (name : String) : Option TarRecord :=
  let directory := ("update" :: state.directories).contains name
  let xbit := state.xbit.contains name
  let p := path env name
  if directory then
    some { name := name, isdir := true, size := 0, uid := 1000, gid := 1000,
           mtime := 0, uname := "renpy", gname := "renpy",
           mode := if xbit || directory then 0o777 else 0o666 }
  else
    match env.disk p with
    | .regular sz =>
        some { name := name, isdir := false, size := sz, uid := 1000, gid := 1000,
               mtime := 0, uname := "renpy", gname := "renpy",
               mode := if xbit || directory then 0o777 else 0o666 }
    | _ => none

/-- The archive content `Updater.prepare` emits for one module:
directory records of size 0, existing regular files (missing or
irregular listed files are skipped), all canonicalized to
`uid=gid=1000`, `mtime=0`, owner names `renpy`, and mode `0o777` for
directories and `xbit` entries, otherwise `0o666`. -/
def prepare_records (env : Env) (state : ModEntry) : List TarRecord :=
  (prepare_all state).filterMap (prepare_record_of env state)

/-- The session side of `Updater.prepare`: `tarfile.open(..., "w")`
creates the seed archive inside the update directory, then the loop
assigns `self.progress = 1.0 * i / len(all)` for each entry index
(reads of installed files mutate nothing).  Looking up
`self.current_state[module]` raises `KeyError` when absent. -/
def prepare (env : Env) (st : UpdSt) (module : String) : Except (UpdExc × UpdSt) UpdSt :=
  match alookup env.current_state module with
  | none => .error (.otherExc "KeyError", st)
  | some state =>
      let all := prepare_all state
      let st := emit st (.write (update_filename env module false))
      let st := (List.range all.length).foldl
        (fun s i => set_progress s (some (Frac.ofDiv i all.length))) st
      .ok st

/-- A simplified model of `urlparse.urljoin` for the archive URL
(absolute references kept, relative ones resolved against the manifest
URL's directory).  No claim depends on its value. -/
def urljoin (base rel : String) : String :=
  if strStartsWith rel "http://" || strStartsWith rel "https://" then rel
  else String.mk ((base.data.reverse.dropWhile (fun c => !(c = '/'))).reverse) ++ rel

/-- The zsync command line `Updater.download` builds.  Note the inner
loop appends `self.update_filename(module, False)` — the *outer*
`module` argument — for every element `i` of `self.modules`. -/
def download_cmd (env : Env) (modules : List String) (module : String) (u : ModEntry) :
    List String :=
  let new_fn := update_filename env module true
  let cmd := ["./zsync", "-o", new_fn, "-k", ud_file env (module ++ ".zsync")]
  let cmd := modules.foldl (fun cmd i => cmd ++ ["-i", update_filename env module false]) cmd
  cmd ++ [urljoin env.url u.url]

/-- The paths passed after `-i` flags of a command line. -/
def seed_args : List String → List String
  | [] => []
  | "-i" :: x :: rest => x :: seed_args rest
  | _ :: rest => seed_args rest

/-- Modelled from the spec: "Seed archives: every `<module>.update`
built in §4.5 is passed as a seed" — one seed per module being
updated.  (The code under `src/` disagrees; this definition exists to
be compared against `download_cmd`.) -/
def spec_seed_args (env : Env) (modules : List String) : List String :=
  modules.map (fun n => update_filename env n false)

/-- The body of `download`'s line loop for one line: the line is
written to the log, then the `PROGRESS`/`ENDPROGRESS` protocol updates
`start_progress` (first component) and `self.progress`. -/
def process_line (start_progress : Option Frac) (st : UpdSt) (l : ZLine) :
    Option Frac × UpdSt :=
  let st := emit st (.logLine l)
  match l with
  | .progress raw =>
      let raw_progress := raw.div100
      if raw_progress.veq Frac.one then
        (start_progress, set_progress st (some Frac.one))
      else
        match start_progress with
        | none => (some raw_progress, set_progress st (some Frac.zero))
        | some s =>
            (start_progress,
             set_progress st (some ((raw_progress.sub s).divBy (Frac.one.sub s))))
  | .endprogress => (none, set_progress st none)
  | .other _ => (start_progress, st)

/-- The chunked read loop of `download`'s digest check:
`f.read(1024 * 1024)` until empty.  (Structural recursion on a fuel
equal to the content length; every non-final chunk removes at least one
byte.) -/
def read_chunks_fuel : Nat → List Nat → List (List Nat)
  | 0, _ => []
  | fuel + 1, content =>
      if content = [] then []
      else content.take (1024 * 1024) :: read_chunks_fuel fuel (content.drop (1024 * 1024))

/-- The chunks `download` reads from the downloaded file. -/
def read_chunks (content : List Nat) : List (List Nat) :=
  read_chunks_fuel content.length content

/-- All bytes fed to `hash.update`, in order: the concatenation of the
chunks. -/
def stream_read (content : List Nat) : List Nat :=
  (read_chunks content).foldl (fun h data => h ++ data) []

/-- The message of the `UpdateError` raised when the delta tool left no
output file. -/
def not_downloaded_msg : String := "The update file was not downloaded."

/-- The message of the `UpdateError` raised on a digest mismatch. -/
def corrupted_msg : String :=
  "The update file does not have the correct digest - it may have been corrupted."

/-- `Updater.download` for one module: spawn the delta tool (which
maintains its control file and, if it succeeds, the output file inside
the update directory), consume its output lines, then after it exits
verify the output file exists and has the manifest digest. -/
def download (env : Env) (st : UpdSt) (module : String) : Except (UpdExc × UpdSt) UpdSt :=
  match alookup env.updates module with
  | none => .error (.otherExc "KeyError", st)
  | some u =>
      let new_fn := update_filename env module true
      let st := emit st (.spawn (download_cmd env st.modules module u))
      let st := emit st (.write (ud_file env (module ++ ".zsync")))
      let st := if env.tool_out_exists module then emit st (.write new_fn) else st
      let st := ((env.tool_lines module).foldl
        (fun p l => process_line p.1 p.2 l) (none, st)).2
      if !(env.tool_out_exists module) then
        .error (.updateError not_downloaded_msg, st)
      else
        let digest := env.hashFn (stream_read (env.tool_content module))
        if digest ≠ u.digest then
          .error (.updateError corrupted_msg, st)
        else .ok st

/-- The entry loop of `Updater.unpack` (`i` is the running index,
`tf_len` the total count from the first pass).  `update` is skipped;
`update/current.json` is parsed and only its entry for the current
module replaces `new_state[module]`; directories are created
immediately; regular files are streamed to `<path>.new` (with the
execute bits set when the archive mode has the world-execute bit) and
enqueued in `moves`; any other entry type raises `UpdateError`. -/
def unpack_go (env : Env) (module : String) (tf_len : Nat) :
    List TarEntry → Nat → UpdSt → Except (UpdExc × UpdSt) UpdSt
  | [], _, st => .ok st
  | info :: rest, i, st =>
      let st := set_progress st (some (Frac.ofDiv i tf_len))
      if info.name = "update" then unpack_go env module tf_len rest (i + 1) st
      else if info.name = "update/current.json" then
        match env.jsonParse info.content with
        | none => .error (.otherExc "ValueError", st)
        | some state =>
            match alookup state module with
            | none => .error (.otherExc "KeyError", st)
            | some entry =>
                unpack_go env module tf_len rest (i + 1)
                  { st with new_state := aset st.new_state module entry }
      else
        let p := path env info.name
        match info.etype with
        | .dir => unpack_go env module tf_len rest (i + 1) (emit st (.mkdir p))
        | .reg =>
            let st := emit st (.write (p ++ ".new"))
            let st := if info.mode &&& 1 ≠ 0 then emit st (.chmod (p ++ ".new")) else st
            unpack_go env module tf_len rest (i + 1) { st with moves := st.moves ++ [p] }
        | .unknown t =>
            .error (.updateError
              ("While unpacking " ++ info.name ++ ", unknown type " ++ toString t ++ "."), st)

/-- `Updater.unpack` for one module. -/
def unpack (env : Env) (st : UpdSt) (module : String) : Except (UpdExc × UpdSt) UpdSt :=
  let entries := env.archive module
  unpack_go env module entries.length entries 0 st

/-- `Updater.move_files`: for every pending move, unlink the existing
destination and rename the `.new` sidecar onto it. -/
def move_files (env : Env) (st : UpdSt) : UpdSt :=
  st.moves.foldl (fun s p =>
    let s := match env.disk p with
      | .missing => s
      | _ => emit s (.unlink p)
    emit s (.rename (p ++ ".new") p)) st

/-- `flatten_path` inside `delete_obsolete`: the set of resolved paths
under one key of every entry of a snapshot (a Python `set`; `dedup`
models the set semantics, the order is irrelevant because the caller
sorts). -/
def flatten_path (env : Env) (d : Snapshot) (key : ModEntry → List String) : List String :=
  (d.foldl (fun acc p => acc ++ (key p.2).map (path env)) []).dedup

/-- `Updater.delete_obsolete`: unlink old-not-new files, then remove
old-not-new directories, in reverse sorted order, best-effort. -/
def delete_obsolete (env : Env) (st : UpdSt) : UpdSt :=
  let old_files := flatten_path env env.current_state (fun e => e.files)
  let old_directories := flatten_path env env.current_state (fun e => e.directories)
  let new_files := flatten_path env st.new_state (fun e => e.files)
  let new_directories := flatten_path env st.new_state (fun e => e.directories)
  let old_files := (pysorted (old_files.filter (fun x => !(new_files.contains x)))).reverse
  let old_directories :=
    (pysorted (old_directories.filter (fun x => !(new_directories.contains x)))).reverse
  let st := old_files.foldl (fun s i => emit s (.unlink i)) st
  old_directories.foldl (fun s i => emit s (.rmdir i)) st

/-- `Updater.save_state`: writes `new_state` to
`update/current.json`. -/
def save_state (env : Env) (st : UpdSt) : UpdSt :=
  let st := emit st (.write (ud_file env "current.json"))
  { st with saved := some st.new_state }

/-- `Updater.clean`: best-effort unlink of a file in the update
directory. -/
def clean (env : Env) (st : UpdSt) (fn : String) : UpdSt :=
  emit st (.unlink (ud_file env fn))

/-- `Updater.clean_old`: removes `<module>.update` for every module in
`self.modules`. -/
def clean_old (env : Env) (st : UpdSt) : UpdSt :=
  st.modules.foldl (fun s i => clean env s (i ++ ".update")) st

/-- `Updater.clean_new`: removes `<module>.update.new` and
`<module>.zsync` for every module. -/
def clean_new (env : Env) (st : UpdSt) : UpdSt :=
  st.modules.foldl (fun s i => clean env (clean env s (i ++ ".update.new")) (i ++ ".zsync")) st

/-- Fold a fallible per-module stage over the module list, stopping at
the first exception (each `for i in self.modules:` loop whose body can
raise). -/
def foldE (f : UpdSt → String → Except (UpdExc × UpdSt) UpdSt) :
    List String → UpdSt → Except (UpdExc × UpdSt) UpdSt
  | [], st => .ok st
  | m :: rest, st =>
      match f st m with
      | .ok st2 => foldE f rest st2
      | .error e => .error e

/-- The tail of `Updater.update` after unpacking: the `FINISHING`
stage, then the `DONE` field values. -/
def finish (env : Env) (st : UpdSt) : UpdSt :=
  let st := set_progress st none
  let st := set_state st "FINISHING"
  let st := move_files env st
  let st := delete_obsolete env st
  let st := save_state env st
  let st := clean_new env st
  let st := { st with message := none }
  let st := set_progress st none
  let st := { st with can_proceed := true, can_cancel := false }
  set_state st "DONE"

/-- The pipeline of `Updater.update` after the user proceeds:
PREPARING, DOWNLOADING (then the mid-run `clean_old`), UNPACKING,
FINISHING. -/
def update_core (env : Env) (st : UpdSt) : Except (UpdExc × UpdSt) UpdSt :=
  let st := { st with new_state := env.current_state }
  let st := set_progress st (some Frac.zero)
  let st := set_state st "PREPARING"
  match foldE (prepare env) st.modules st with
  | .error e => .error e
  | .ok st =>
  let st := set_progress st (some Frac.zero)
  let st := set_state st "DOWNLOADING"
  match foldE (download env) st.modules st with
  | .error e => .error e
  | .ok st =>
  let st := clean_old env st
  let st := { st with can_cancel := false }
  let st := set_progress st (some Frac.zero)
  let st := set_state st "UNPACKING"
  match foldE (unpack env) st.modules st with
  | .error e => .error e
  | .ok st => .ok (finish env st)

/-- `Updater.update`: the whole worker body, from `load_state` to
`DONE`, as a function of the environment.  The `UPDATE AVAILABLE` wait
resolves according to `env.proceeded`; a cancel there raises
`UpdateCancelled` (`if self.cancelled: raise UpdateCancelled()`). -/
def update (env : Env) : Except (UpdExc × UpdSt) UpdSt :=
  match load_state env init_st with
  | .error e => .error e
  | .ok st =>
  match test_write env st with
  | .error e => .error e
  | .ok st =>
  let st := check_updates env st
  let st := { st with modules := check_versions env.force env.current_state env.updates }
  if st.modules = [] then
    .ok (set_state { st with can_cancel := false, can_proceed := true }
      "UPDATE NOT AVAILABLE")
  else
    let st := set_state { st with can_cancel := true, can_proceed := true }
      "UPDATE AVAILABLE"
    if env.proceeded then update_core env st
    else .error (.cancelled, st)

/-- The exception handler of `Updater.run`: `UpdateCancelled` ends in
`CANCELLED` (message cleared), `UpdateError` in `ERROR` with the
error's message, any other exception in `ERROR` with `unicode(e)`. -/
def handle : Except (UpdExc × UpdSt) UpdSt → UpdSt
  | .ok st => st
  | .error (.cancelled, st) =>
      let st := { st with can_cancel := true, can_proceed := false }
      let st := set_progress st none
      let st := { st with message := none }
      set_state st "CANCELLED"
  | .error (.updateError msg, st) =>
      let st := { st with message := some msg, can_cancel := true, can_proceed := false }
      set_state st "ERROR"
  | .error (.otherExc msg, st) =>
      let st := { st with message := some msg, can_cancel := true, can_proceed := false }
      set_state st "ERROR"

/-- `Updater.run`: the update body under the exception handler, then
the unconditional `clean_old`. -/
def run (env : Env) : UpdSt := clean_old env (handle (update env))

/-- The state component an exception was raised with (the object state
at raise time). -/
def stOf : Except (UpdExc × UpdSt) UpdSt → UpdSt
  | .ok st => st
  | .error (_, st) => st

/-- The paths a single effect mutates (log lines, progress/state
assignments and subprocess spawns touch no path themselves; the spawned
tool's writes appear as separate `write` events). -/
def touched_paths : Ev → List String
  | .write p => [p]
  | .unlink p => [p]
  | .rmdir p => [p]
  | .mkdir p => [p]
  | .chmod p => [p]
  | .rename a b => [a, b]
  | _ => []

/-- An effect is harmless for directory `dir` when every path it
mutates lies inside `dir`.  Executing an attacker-controlled
`monkeypatch` payload counts as unconstrained, hence never
harmless. -/
def ev_ok (dir : String) : Ev → Bool
  | .execCode _ => false
  | e => (touched_paths e).all (fun p => inside dir p)

/-- Every effect of the trace stays inside `dir`. -/
def evs_ok (dir : String) (l : List Ev) : Bool := l.all (ev_ok dir)

/-- The download verification succeeds for a module: output file
present and streaming digest equal to the manifest digest. -/
def dl_ok (env : Env) (m : String) : Bool :=
  env.tool_out_exists m &&
    match alookup env.updates m with
    | some u => env.hashFn (stream_read (env.tool_content m)) == u.digest
    | none => false

/-- The number of `update/current.json` members of an entry list. -/
def cjson_count_of (l : List TarEntry) : Nat :=
  (l.filter (fun e => e.name == "update/current.json")).length

/-- The snapshot entry for `m` carried by the first
`update/current.json` member of an entry list, if any. -/
def cjson_payload_of (env : Env) (m : String) (l : List TarEntry) : Option ModEntry :=
  match l.find? (fun e => e.name == "update/current.json") with
  | some e => (env.jsonParse e.content).bind (fun s => alookup s m)
  | none => none

/-- The number of `update/current.json` entries in a module's
downloaded archive. -/
def cjson_count (env : Env) (m : String) : Nat := cjson_count_of (env.archive m)

/-- The snapshot entry for `m` carried by the first
`update/current.json` member of `m`'s archive, if any. -/
def cjson_payload (env : Env) (m : String) : Option ModEntry :=
  cjson_payload_of env m (env.archive m)

/-- An archive entry `unpack` handles without raising: the special
names, a directory, or a regular file. -/
def entry_kind_ok (e : TarEntry) : Bool :=
  e.name == "update" || e.name == "update/current.json" ||
    (match e.etype with | .dir => true | .reg => true | .unknown _ => false)

/-- `unpack` completes for module `m` without raising: every entry is
of a handled kind, and at most one `update/current.json` entry exists,
which (when present) parses and contains `m`. -/
def unpack_ok (env : Env) (m : String) : Bool :=
  (env.archive m).all entry_kind_ok &&
    (cjson_count env m == 0 ||
      (cjson_count env m == 1 && (cjson_payload env m).isSome))

/-- The claim's monotonicity check over an effect trace: inside every
maximal run between `setState` events, values assigned to `progress`
never decrease (a cleared progress — `None` — starts over). -/
def progress_ok : List Ev → Option Frac → Bool
  | [], _ => true
  | e :: rest, last =>
      match e with
      | .setState _ => progress_ok rest none
      | .setProgress none => progress_ok rest none
      | .setProgress (some p) =>
          match last with
          | some q => q.le p && progress_ok rest (some p)
          | none => progress_ok rest (some p)
      | _ => progress_ok rest last

/-- The progress assignments `prepare` makes for one module:
`1.0 * i / len(all)` for each index. -/
def prepare_progress (state : ModEntry) : List Frac :=
  (List.range (prepare_all state).length).map
    (fun i => Frac.ofDiv i (prepare_all state).length)

/-- An entry of `prepare_all` survives `prepare`'s skip rules: it is a
directory (of the entry's directory set extended with `update`), or a
regular file present on disk. -/
def prepare_emittable (env : Env) (state : ModEntry) (name : String) : Bool :=
  ("update" :: state.directories).contains name ||
    (match env.disk (path env name) with | .regular _ => true | _ => false)

/-- The working-data fields a stage leaves untouched (`b` is the later
state). -/
def work_eq (a b : UpdSt) : Prop :=
  b.modules = a.modules ∧ b.new_state = a.new_state ∧ b.saved = a.saved

/-- A stage step that keeps the working data and only appends effects
that stay inside the update directory. -/
def trace_ok (env : Env) (a b : UpdSt) : Prop :=
  work_eq a b ∧ ∃ Δ, b.events = a.events ++ Δ ∧ evs_ok (updatedir env) Δ = true

/-- A step that only appends effects staying inside the update
directory (the working data may change). -/
def events_ok_ext (env : Env) (a b : UpdSt) : Prop :=
  ∃ Δ, b.events = a.events ++ Δ ∧ evs_ok (updatedir env) Δ = true

/-- `b` is `a` with (possibly) more effects recorded and nothing else
changed. -/
def only_events (a b : UpdSt) : Prop :=
  b.state = a.state ∧ b.message = a.message ∧ b.progress = a.progress ∧
  b.can_cancel = a.can_cancel ∧ b.can_proceed = a.can_proceed ∧
  b.modules = a.modules ∧ b.new_state = a.new_state ∧ b.moves = a.moves ∧
  b.saved = a.saved ∧ ∃ Δ, b.events = a.events ++ Δ

/-- The snapshot `update` ends with: the prior snapshot with, for each
updated module in order, its entry replaced by the payload of its own
archive's `update/current.json` (when that archive has one). -/
def merged (env : Env) (mods : List String) : Snapshot :=
  mods.foldl (fun s m =>
    match cjson_payload env m with
    | some e => aset s m e
    | none => s) env.current_state

/-- The object state right after `check_updates` and the
`check_versions` assignment to `self.modules`. -/
def checked_st (env : Env) : UpdSt :=
  let st := emit init_st (.write (ud_file env "test.txt"))
  let st := emit st (.unlink (ud_file env "test.txt"))
  let st := check_updates env st
  { st with modules := check_versions env.force env.current_state env.updates }

/-- The object state at the `UPDATE AVAILABLE` wait (nonempty stale
set). -/
def avail_st (env : Env) : UpdSt :=
  set_state { checked_st env with can_cancel := true, can_proceed := true }
    "UPDATE AVAILABLE"

/-- A snapshot entry of the installed version `1`. -/
def entryOld : ModEntry :=
  { version := "1", files := ["a.txt"], directories := [], xbit := [],
    digest := "", url := "" }

/-- The matching server-manifest entry at version `2`. -/
def entryNew : ModEntry :=
  { version := "2", files := ["a.txt"], directories := [], xbit := [],
    digest := "D", url := "m.zsync" }

/-- The post-upgrade snapshot entry carried by the downloaded archive's
`update/current.json`. -/
def entryUp : ModEntry :=
  { version := "2", files := ["a.txt"], directories := [], xbit := [],
    digest := "", url := "" }

/-- A small benign environment: one stale module `m`, a download whose
digest matches, and an archive holding `a.txt` plus the authoritative
`update/current.json`.  The concrete environments below are variations
of it. -/
def env1 : Env :=
  { base := "/game", url := "http://s/updates.json", force := false,
    current_exists := true, current_state := [("m", entryOld)],
    can_write := true, log_ok := true,
    updates := [("m", entryNew)], monkeypatch := none, proceeded := true,
    disk := fun _ => .missing,
    tool_lines := fun _ => [.other "fetching", .progress ⟨50, 1⟩, .progress ⟨75, 1⟩,
      .progress ⟨100, 1⟩, .endprogress],
    tool_out_exists := fun _ => true,
    tool_content := fun _ => [7, 7],
    archive := fun _ =>
      [{ name := "a.txt", etype := .reg, content := [1], mode := 0o666 },
       { name := "update", etype := .dir, content := [], mode := 0o777 },
       { name := "update/current.json", etype := .reg, content := [9], mode := 0o666 }],
    hashFn := fun b => if b = [7, 7] then "D" else "X",
    jsonParse := fun b => if b = [9] then some [("m", entryUp)] else none }

/-- `env1` with a download that hashes to the wrong digest (the C1
failing run). -/
def envBadDigest : Env := { env1 with tool_content := fun _ => [8] }

/-- `env1` with no `update/current.json` member in the archive (the C10
run). -/
def envNoCjson : Env :=
  { env1 with archive := fun _ =>
      [{ name := "a.txt", etype := .reg, content := [1], mode := 0o666 },
       { name := "update", etype := .dir, content := [], mode := 0o777 }] }

/-- `env1` with a delta tool that leaves no output file (used to drive
a session into `PREPARING` and then an error, for the progress-trace
counterexample). -/
def envNoOut : Env := { env1 with tool_out_exists := fun _ => false }

/-- A manifest-fetch environment without a `monkeypatch` member (the
stale set is empty; the session is otherwise trivial). -/
def envNoMP : Env := { env1 with current_state := [], updates := [] }

/-- Identical to `envNoMP` except that the parsed manifest carries a
`monkeypatch` member. -/
def envMP : Env := { envNoMP with monkeypatch := some "evil()" }

/-- The entry and environment the `prepare_records` witness uses: two
listed files of which one is missing on disk, one listed directory, an
executable, and `update/current.json` present on disk. -/
def entryC8 : ModEntry :=
  { version := "1", files := ["d/a.txt", "gone.txt", "run.exe"], directories := ["d"],
    xbit := ["run.exe"], digest := "", url := "" }

/-- Disk contents for the `prepare_records` witness. -/
def envC8 : Env :=
  { env1 with disk := fun p =>
      if p = "/game/d/a.txt" then .regular 3
      else if p = "/game/run.exe" then .regular 5
      else if p = "/game/update/current.json" then .regular 11
      else .missing }

/-! ### Infrastructure lemmas -/

/-- `Frac.le` really is comparison of the denoted rational values
(sanity bridge for the hand-rolled float model). -/
theorem Frac.le_iff_toRat (a b : Frac) (ha : a.den ≠ 0) (hb : b.den ≠ 0) :
    a.le b = true ↔ a.toRat ≤ b.toRat := by
  have ha' : (0 : Int) < (a.den : Int) := by exact_mod_cast Nat.pos_of_ne_zero ha
  have hb' : (0 : Int) < (b.den : Int) := by exact_mod_cast Nat.pos_of_ne_zero hb
  rw [Frac.le, decide_eq_true_eq, Frac.toRat, Frac.toRat,
    Rat.divInt_le_divInt ha' hb']

/-- `Frac.veq` really is equality of the denoted rational values. -/
theorem Frac.veq_iff_toRat (a b : Frac) (ha : a.den ≠ 0) (hb : b.den ≠ 0) :
    a.veq b = true ↔ a.toRat = b.toRat := by
  have ha' : ((a.den : Int) : ℚ) ≠ 0 := by exact_mod_cast ha
  have hb' : ((b.den : Int) : ℚ) ≠ 0 := by exact_mod_cast hb
  rw [Frac.veq, beq_iff_eq, Frac.toRat, Frac.toRat, Rat.divInt_eq_div,
    Rat.divInt_eq_div, div_eq_div_iff ha' hb']
  constructor
  · intro h; exact_mod_cast h
  · intro h; exact_mod_cast h

theorem inside_append (dir s : String) : inside dir (dir ++ "/" ++ s) = true := by
  simp [inside, List.isPrefixOf_iff_prefix, String.data_append, List.append_assoc]

theorem inside_ud (env : Env) (fn : String) :
    inside (updatedir env) (ud_file env fn) = true :=
  inside_append (updatedir env) fn

theorem inside_ud_suffix (env : Env) (fn s : String) :
    inside (updatedir env) (ud_file env fn ++ s) = true := by
  have : ud_file env fn ++ s = updatedir env ++ "/" ++ (fn ++ s) := by
    rw [ud_file, String.append_assoc]
  rw [this]; exact inside_append _ _

theorem evs_ok_append (dir : String) (a b : List Ev) :
    evs_ok dir (a ++ b) = (evs_ok dir a && evs_ok dir b) := by
  simp [evs_ok, List.all_append]

theorem ev_ok_no_path (dir : String) (e : Ev) (he : touched_paths e = [])
    (hx : ∀ c, e ≠ .execCode c) : ev_ok dir e = true := by
  cases e <;> simp_all [ev_ok, touched_paths]

theorem work_eq_refl (a : UpdSt) : work_eq a a := ⟨rfl, rfl, rfl⟩

theorem work_eq_trans {a b c : UpdSt} (h1 : work_eq a b) (h2 : work_eq b c) :
    work_eq a c := by
  obtain ⟨x1, y1, z1⟩ := h1; obtain ⟨x2, y2, z2⟩ := h2
  exact ⟨x2.trans x1, y2.trans y1, z2.trans z1⟩

theorem trace_ok_refl (env : Env) (a : UpdSt) : trace_ok env a a :=
  ⟨work_eq_refl a, [], by simp, rfl⟩

theorem trace_ok_trans {env : Env} {a b c : UpdSt} (h1 : trace_ok env a b)
    (h2 : trace_ok env b c) : trace_ok env a c := by
  obtain ⟨w1, Δ1, he1, ho1⟩ := h1
  obtain ⟨w2, Δ2, he2, ho2⟩ := h2
  refine ⟨work_eq_trans w1 w2, Δ1 ++ Δ2, ?_, ?_⟩
  · rw [he2, he1, List.append_assoc]
  · rw [evs_ok_append, ho1, ho2]; rfl

theorem trace_ok_emit (env : Env) (a : UpdSt) (e : Ev)
    (he : ev_ok (updatedir env) e = true) : trace_ok env a (emit a e) :=
  ⟨⟨rfl, rfl, rfl⟩, [e], rfl, by simp [evs_ok, he]⟩

theorem trace_ok_set_progress (env : Env) (a : UpdSt) (p : Option Frac) :
    trace_ok env a (set_progress a p) :=
  ⟨⟨rfl, rfl, rfl⟩, [.setProgress p], rfl, by simp [evs_ok, ev_ok, touched_paths]⟩

theorem trace_ok_set_state (env : Env) (a : UpdSt) (s : String) :
    trace_ok env a (set_state a s) :=
  ⟨⟨rfl, rfl, rfl⟩, [.setState s], rfl, by simp [evs_ok, ev_ok, touched_paths]⟩

theorem only_events_refl (a : UpdSt) : only_events a a := by
  refine ⟨rfl, rfl, rfl, rfl, rfl, rfl, rfl, rfl, rfl, [], by simp⟩

theorem only_events_trans {a b c : UpdSt} (h1 : only_events a b)
    (h2 : only_events b c) : only_events a c := by
  obtain ⟨s1, m1, p1, c1, r1, o1, n1, v1, d1, Δ1, e1⟩ := h1
  obtain ⟨s2, m2, p2, c2, r2, o2, n2, v2, d2, Δ2, e2⟩ := h2
  refine ⟨s2.trans s1, m2.trans m1, p2.trans p1, c2.trans c1, r2.trans r1,
    o2.trans o1, n2.trans n1, v2.trans v1, d2.trans d1, Δ1 ++ Δ2, ?_⟩
  rw [e2, e1, List.append_assoc]

theorem only_events_emit (a : UpdSt) (e : Ev) : only_events a (emit a e) :=
  ⟨rfl, rfl, rfl, rfl, rfl, rfl, rfl, rfl, rfl, [e], rfl⟩

/-- A fold whose body only records effects only records effects. -/
theorem only_events_foldl {α : Type} (f : UpdSt → α → UpdSt)
    (hf : ∀ s x, only_events s (f s x)) (l : List α) :
    ∀ st, only_events st (l.foldl f st) := by
  induction l with
  | nil => intro st; exact only_events_refl st
  | cons x rest ih =>
      intro st
      exact only_events_trans (hf st x) (ih (f st x))

theorem only_events_clean_old (env : Env) (st : UpdSt) :
    only_events st (clean_old env st) :=
  only_events_foldl _ (fun s x => only_events_emit s _) st.modules st

theorem only_events_clean_new (env : Env) (st : UpdSt) :
    only_events st (clean_new env st) := by
  refine only_events_foldl _ (fun s x => ?_) st.modules st
  exact only_events_trans (only_events_emit s _) (only_events_emit _ _)

theorem only_events_move_files (env : Env) (st : UpdSt) :
    only_events st (move_files env st) := by
  refine only_events_foldl _ (fun s x => ?_) st.moves st
  rcases h : env.disk x with _ | sz | _ <;>
    simp only [h] <;>
    first
      | exact only_events_emit s _
      | exact only_events_trans (only_events_emit s _) (only_events_emit _ _)

theorem only_events_delete_obsolete (env : Env) (st : UpdSt) :
    only_events st (delete_obsolete env st) := by
  rw [delete_obsolete]
  exact only_events_trans
    (only_events_foldl _ (fun s x => only_events_emit s _) _ st)
    (only_events_foldl _ (fun s x => only_events_emit s _) _ _)

/-- Folding an effect-record per element appends the mapped effects. -/
theorem foldl_emit_events {α : Type} (g : α → Ev) (l : List α) :
    ∀ st : UpdSt, (l.foldl (fun s x => emit s (g x)) st).events =
      st.events ++ l.map g := by
  induction l with
  | nil => intro st; simp
  | cons x rest ih =>
      intro st
      rw [List.foldl_cons, ih, List.map_cons, emit]
      simp [List.append_assoc]

theorem clean_old_events (env : Env) (st : UpdSt) :
    (clean_old env st).events =
      st.events ++ st.modules.map (fun i => Ev.unlink (ud_file env (i ++ ".update"))) :=
  foldl_emit_events (fun i => Ev.unlink (ud_file env (i ++ ".update"))) st.modules st

/-- The progress-assignment loops (`prepare`, index-driven): field
effects of folding `set_progress` over a list of indices. -/
theorem foldl_set_progress (g : Nat → Frac) (l : List Nat) :
    ∀ st : UpdSt,
      (l.foldl (fun s i => set_progress s (some (g i))) st).modules = st.modules ∧
      (l.foldl (fun s i => set_progress s (some (g i))) st).new_state = st.new_state ∧
      (l.foldl (fun s i => set_progress s (some (g i))) st).saved = st.saved ∧
      (l.foldl (fun s i => set_progress s (some (g i))) st).events =
        st.events ++ l.map (fun i => Ev.setProgress (some (g i))) := by
  induction l with
  | nil => intro st; simp
  | cons x rest ih =>
      intro st
      obtain ⟨h1, h2, h3, h4⟩ := ih (set_progress st (some (g x)))
      rw [List.foldl_cons]
      refine ⟨h1, h2, h3, ?_⟩
      rw [h4, List.map_cons, set_progress, emit]
      simp [List.append_assoc]

/-- Generic success path of a `for i in self.modules:` loop: if each
body call succeeds and respects a transitive relation, so does the
whole loop. -/
theorem foldE_ok_of (f : UpdSt → String → Except (UpdExc × UpdSt) UpdSt)
    (R : UpdSt → UpdSt → Prop) (hrefl : ∀ a, R a a)
    (htrans : ∀ a b c, R a b → R b c → R a c) (l : List String) :
    ∀ st, (∀ st0 m, m ∈ l → ∃ st1, f st0 m = .ok st1 ∧ R st0 st1) →
      ∃ st', foldE f l st = .ok st' ∧ R st st' := by
  induction l with
  | nil => intro st _; exact ⟨st, rfl, hrefl st⟩
  | cons m rest ih =>
      intro st h
      obtain ⟨st1, hf, hr⟩ := h st m (by simp)
      obtain ⟨st', hfold, hr'⟩ := ih st1 (fun st0 x hx => h st0 x (by simp [hx]))
      exact ⟨st', by rw [foldE, hf]; exact hfold, htrans _ _ _ hr hr'⟩

/-- Generic failure path of a `for i in self.modules:` loop: the
modules before `m` succeed and `m` raises. -/
theorem foldE_err_at (f : UpdSt → String → Except (UpdExc × UpdSt) UpdSt)
    (R : UpdSt → UpdSt → Prop) (htrans : ∀ a b c, R a b → R b c → R a c)
    (exc : UpdExc) (m : String) (post : List String) (pre : List String) :
    ∀ st, (∀ st0 x, x ∈ pre → ∃ st1, f st0 x = .ok st1 ∧ R st0 st1) →
      (∀ st0, ∃ st1, f st0 m = .error (exc, st1) ∧ R st0 st1) →
      ∃ st', foldE f (pre ++ m :: post) st = .error (exc, st') ∧ R st st' := by
  induction pre with
  | nil =>
      intro st _ herr
      obtain ⟨st1, hf, hr⟩ := herr st
      exact ⟨st1, by rw [List.nil_append, foldE, hf], hr⟩
  | cons x rest ih =>
      intro st h herr
      obtain ⟨st1, hf, hr⟩ := h st x (by simp)
      obtain ⟨st', hfold, hr'⟩ := ih st1 (fun st0 y hy => h st0 y (by simp [hy])) herr
      exact ⟨st', by rw [List.cons_append, foldE, hf]; exact hfold, htrans _ _ _ hr hr'⟩

/-- The chunked read loop feeds exactly the file's bytes, in order. -/
theorem read_chunks_fuel_foldl (fuel : Nat) :
    ∀ (content : List Nat) (acc : List Nat), content.length ≤ fuel →
      (read_chunks_fuel fuel content).foldl (fun h data => h ++ data) acc =
        acc ++ content := by
  induction fuel with
  | zero =>
      intro content acc h
      have : content = [] := List.eq_nil_of_length_eq_zero (Nat.le_zero.mp h)
      simp [this, read_chunks_fuel]
  | succ fuel ih =>
      intro content acc h
      rw [read_chunks_fuel]
      by_cases hc : content = []
      · simp [hc]
      · rw [if_neg hc, List.foldl_cons,
          ih (content.drop (1024 * 1024)) (acc ++ content.take (1024 * 1024)) ?_,
          List.append_assoc, List.take_append_drop]
        have hpos : 0 < content.length := List.length_pos.mpr hc
        rw [List.length_drop]
        omega

/-- `download`'s digest is computed over the whole downloaded file:
the streamed bytes are the file's bytes. -/
theorem stream_read_eq (content : List Nat) : stream_read content = content := by
  rw [stream_read, read_chunks]
  exact read_chunks_fuel_foldl content.length content [] (Nat.le_refl _)

/-- Every module of the stale set has an entry in both the installed
snapshot and the server manifest. -/
theorem check_versions_mem (force : Bool) (upd : Snapshot) :
    ∀ (cur : Snapshot) (m : String), m ∈ check_versions force cur upd →
      (alookup cur m).isSome ∧ (alookup upd m).isSome := by
  intro cur
  induction cur with
  | nil => intro m h; simp [check_versions] at h
  | cons p rest ih =>
      intro m h
      obtain ⟨name, data⟩ := p
      rw [check_versions] at h
      rcases hu : alookup upd name with _ | u
      · simp only [hu] at h
        obtain ⟨h1, h2⟩ := ih m h
        refine ⟨?_, h2⟩
        rw [alookup]
        by_cases hnm : name = m <;> simp [hnm, h1]
      · simp only [hu] at h
        by_cases hskip : (data.version == u.version && !force) = true
        · rw [if_pos hskip] at h
          obtain ⟨h1, h2⟩ := ih m h
          refine ⟨?_, h2⟩
          rw [alookup]
          by_cases hnm : name = m <;> simp [hnm, h1]
        · rw [if_neg hskip] at h
          rcases List.mem_cons.mp h with heq | hmem
          · subst heq
            exact ⟨by simp [alookup], by simp [hu]⟩
          · obtain ⟨h1, h2⟩ := ih m hmem
            refine ⟨?_, h2⟩
            rw [alookup]
            by_cases hnm : name = m <;> simp [hnm, h1]

/-- If a key has a binding, it is among the keys. -/
theorem alookup_isSome_mem : ∀ (l : Snapshot) (m : String),
    (alookup l m).isSome → m ∈ l.map Prod.fst := by
  intro l
  induction l with
  | nil => intro m h; simp [alookup] at h
  | cons p rest ih =>
      intro m h
      obtain ⟨a, b⟩ := p
      rw [alookup] at h
      by_cases ham : a = m
      · simp [ham]
      · rw [if_neg ham] at h
        simp [ih m h]

/-- `check_versions` computes exactly the stale set: a module is listed
iff it is in both maps and out of date (or `force` is set).  The
installed snapshot is a dict, so its keys are distinct. -/
theorem check_versions_iff (force : Bool) (upd : Snapshot) :
    ∀ (cur : Snapshot), (cur.map Prod.fst).Nodup →
      ∀ m, m ∈ check_versions force cur upd ↔
        (∃ d u, alookup cur m = some d ∧ alookup upd m = some u ∧
          (d.version ≠ u.version ∨ force = true)) := by
  intro cur
  induction cur with
  | nil => intro _ m; simp [check_versions, alookup]
  | cons p rest ih =>
      intro hnd m
      obtain ⟨name, data⟩ := p
      rw [List.map_cons, List.nodup_cons] at hnd
      obtain ⟨hname, hnd'⟩ := hnd
      constructor
      · intro h
        rw [check_versions] at h
        rcases hu : alookup upd name with _ | u <;> simp only [hu] at h
        · obtain ⟨d, u, h1, h2, h3⟩ := (ih hnd' m).mp h
          have hm : m ∈ rest.map Prod.fst := alookup_isSome_mem rest m (by simp [h1])
          have : name ≠ m := fun he => hname (he ▸ hm)
          exact ⟨d, u, by rw [alookup, if_neg this]; exact h1, h2, h3⟩
        · by_cases hskip : (data.version == u.version && !force) = true
          · rw [if_pos hskip] at h
            obtain ⟨d, u', h1, h2, h3⟩ := (ih hnd' m).mp h
            have hm : m ∈ rest.map Prod.fst := alookup_isSome_mem rest m (by simp [h1])
            have : name ≠ m := fun he => hname (he ▸ hm)
            exact ⟨d, u', by rw [alookup, if_neg this]; exact h1, h2, h3⟩
          · rw [if_neg hskip] at h
            rcases List.mem_cons.mp h with heq | hmem
            · subst heq
              refine ⟨data, u, by simp [alookup], hu, ?_⟩
              rcases Bool.not_eq_true _ |>.mp hskip |> Bool.and_eq_false_iff.mp with
                hv | hf
              · exact Or.inl (by simpa using hv)
              · exact Or.inr (by simpa using hf)
            · obtain ⟨d, u', h1, h2, h3⟩ := (ih hnd' m).mp hmem
              have hm : m ∈ rest.map Prod.fst := alookup_isSome_mem rest m (by simp [h1])
              have : name ≠ m := fun he => hname (he ▸ hm)
              exact ⟨d, u', by rw [alookup, if_neg this]; exact h1, h2, h3⟩
      · rintro ⟨d, u, h1, h2, h3⟩
        rw [check_versions]
        by_cases hnm : name = m
        · subst hnm
          rw [alookup, if_pos rfl] at h1
          simp only [h2]
          injection h1 with h1
          subst h1
          have : ¬(data.version == u.version && !force) = true := by
            rcases h3 with h3 | h3 <;> simp [h3]
          rw [if_neg this]
          simp
        · rw [alookup, if_neg hnm] at h1
          have hmem := (ih hnd' m).mpr ⟨d, u, h1, h2, h3⟩
          rcases hu : alookup upd name with _ | u' <;> simp only [hu]
          · exact hmem
          · by_cases hskip : (data.version == u'.version && !force) = true
            · rw [if_pos hskip]; exact hmem
            · rw [if_neg hskip]; exact List.mem_cons_of_mem _ hmem

/-- Each step of `download`'s line loop keeps the working data and only
logs and reports progress. -/
theorem process_line_trace (env : Env) (p : Option Frac) (st : UpdSt) (l : ZLine) :
    trace_ok env st (process_line p st l).2 := by
  have hlog : trace_ok env st (emit st (.logLine l)) :=
    trace_ok_emit env st _ (by simp [ev_ok, touched_paths])
  rcases l with raw | _ | s
  · simp only [process_line]
    split
    · exact trace_ok_trans hlog (trace_ok_set_progress env _ _)
    · split
      · exact trace_ok_trans hlog (trace_ok_set_progress env _ _)
      · exact trace_ok_trans hlog (trace_ok_set_progress env _ _)
  · simp only [process_line]
    exact trace_ok_trans hlog (trace_ok_set_progress env _ _)
  · simp only [process_line]
    exact hlog

/-- The whole line loop keeps the working data and stays inside the
update directory. -/
theorem lines_fold_trace (env : Env) (lines : List ZLine) :
    ∀ (p : Option Frac) (st : UpdSt),
      trace_ok env st ((lines.foldl (fun q l => process_line q.1 q.2 l) (p, st)).2) := by
  induction lines with
  | nil => intro p st; exact trace_ok_refl env st
  | cons l rest ih =>
      intro p st
      rw [List.foldl_cons]
      have h1 := process_line_trace env p st l
      have h2 := ih (process_line p st l).1 (process_line p st l).2
      exact trace_ok_trans h1 h2

/-- `prepare` evaluated: it creates the seed archive in the update
directory and assigns the per-entry progress fractions, in order. -/
theorem prepare_eval (env : Env) (st : UpdSt) (m : String) (state : ModEntry)
    (h : alookup env.current_state m = some state) :
    ∃ st', prepare env st m = .ok st' ∧
      st'.modules = st.modules ∧ st'.new_state = st.new_state ∧ st'.saved = st.saved ∧
      st'.events = st.events ++ [.write (update_filename env m false)] ++
        (prepare_progress state).map (fun q => Ev.setProgress (some q)) := by
  rw [prepare, h]
  refine ⟨_, rfl, ?_⟩
  obtain ⟨h1, h2, h3, h4⟩ := foldl_set_progress
    (fun i => Frac.ofDiv i (prepare_all state).length)
    (List.range (prepare_all state).length)
    (emit st (.write (update_filename env m false)))
  refine ⟨h1, h2, h3, ?_⟩
  rw [h4, emit, prepare_progress, List.map_map]
  rfl

/-- `prepare` keeps working data and stays inside the update
directory. -/
theorem prepare_trace (env : Env) (st : UpdSt) (m : String)
    (h : (alookup env.current_state m).isSome) :
    ∃ st', prepare env st m = .ok st' ∧ trace_ok env st st' := by
  obtain ⟨state, hs⟩ := Option.isSome_iff_exists.mp h
  obtain ⟨st', hok, h1, h2, h3, h4⟩ := prepare_eval env st m state hs
  refine ⟨st', hok, ⟨h1, h2, h3⟩, _, h4.trans (List.append_assoc _ _ _), ?_⟩
  rw [evs_ok_append, Bool.and_eq_true]
  refine ⟨?_, ?_⟩
  · simp [evs_ok, ev_ok, touched_paths, update_filename, inside_ud_suffix, inside_ud]
  · simp [evs_ok, List.all_eq_true, ev_ok, touched_paths]

theorem trace_ok_emit_if (env : Env) (a : UpdSt) (c : Bool) (e : Ev)
    (he : ev_ok (updatedir env) e = true) :
    trace_ok env a (if c then emit a e else a) := by
  cases c
  · simpa using trace_ok_refl env a
  · simpa using trace_ok_emit env a e he

theorem ev_ok_spawn (dir : String) (c : List String) : ev_ok dir (.spawn c) = true := rfl

theorem ev_ok_write (dir p : String) : ev_ok dir (.write p) = inside dir p := by
  simp [ev_ok, touched_paths]

/-- `download` evaluated, once the manifest has the module: some state
`stS` (reached inside the update directory) is where the verification
decides: missing output file, digest mismatch, or success. -/
theorem download_eval (env : Env) (st : UpdSt) (module : String) (u : ModEntry)
    (hu : alookup env.updates module = some u) :
    ∃ stS, trace_ok env st stS ∧
      download env st module =
        (if !(env.tool_out_exists module) then
          .error (.updateError not_downloaded_msg, stS)
        else if env.hashFn (stream_read (env.tool_content module)) ≠ u.digest then
          .error (.updateError corrupted_msg, stS)
        else .ok stS) := by
  simp only [download, hu]
  refine ⟨_, ?_, rfl⟩
  have t1 : trace_ok env st (emit st (.spawn (download_cmd env st.modules module u))) :=
    trace_ok_emit env st _ (ev_ok_spawn _ _)
  have t2 := trace_ok_emit env (emit st (.spawn (download_cmd env st.modules module u)))
    (.write (ud_file env (module ++ ".zsync")))
    (by rw [ev_ok_write]; exact inside_ud env _)
  have t3 := trace_ok_emit_if env
    (emit (emit st (.spawn (download_cmd env st.modules module u)))
      (.write (ud_file env (module ++ ".zsync"))))
    (env.tool_out_exists module) (.write (update_filename env module true))
    (by simp [ev_ok_write, update_filename, inside_ud_suffix])
  have t4 := lines_fold_trace env (env.tool_lines module) none
    (if env.tool_out_exists module then
      emit (emit (emit st (.spawn (download_cmd env st.modules module u)))
        (.write (ud_file env (module ++ ".zsync"))))
        (.write (update_filename env module true))
     else
      emit (emit st (.spawn (download_cmd env st.modules module u)))
        (.write (ud_file env (module ++ ".zsync"))))
  exact trace_ok_trans t1 (trace_ok_trans t2 (trace_ok_trans t3 t4))

/-- A verified download (`dl_ok`) succeeds and stays inside the update
directory. -/
theorem download_ok (env : Env) (st : UpdSt) (module : String)
    (h : dl_ok env module = true) :
    ∃ st', download env st module = .ok st' ∧ trace_ok env st st' := by
  rw [dl_ok] at h
  rcases hu : alookup env.updates module with _ | u <;> simp only [hu] at h
  · simp at h
  · rw [Bool.and_eq_true, beq_iff_eq] at h
    obtain ⟨hex, hd⟩ := h
    obtain ⟨stS, ht, heq⟩ := download_eval env st module u hu
    refine ⟨stS, ?_, ht⟩
    rw [heq, hex]
    simp [hd]

/-- With no output file after the tool exits, `download` raises the
"not downloaded" `UpdateError`. -/
theorem download_err_missing (env : Env) (st : UpdSt) (module : String) (u : ModEntry)
    (hu : alookup env.updates module = some u)
    (hex : env.tool_out_exists module = false) :
    ∃ st', download env st module = .error (.updateError not_downloaded_msg, st') ∧
      trace_ok env st st' := by
  obtain ⟨stS, ht, heq⟩ := download_eval env st module u hu
  refine ⟨stS, ?_, ht⟩
  rw [heq, hex]
  simp

/-- With an output file whose streamed digest differs from the
manifest's, `download` raises the "corrupted" `UpdateError`. -/
theorem download_err_digest (env : Env) (st : UpdSt) (module : String) (u : ModEntry)
    (hu : alookup env.updates module = some u)
    (hex : env.tool_out_exists module = true)
    (hne : env.hashFn (stream_read (env.tool_content module)) ≠ u.digest) :
    ∃ st', download env st module = .error (.updateError corrupted_msg, st') ∧
      trace_ok env st st' := by
  obtain ⟨stS, ht, heq⟩ := download_eval env st module u hu
  refine ⟨stS, ?_, ht⟩
  rw [heq, hex]
  simp [hne]

/-- `download` raises the corruption `UpdateError` iff the file's
SHA-256 hex digest differs from the manifest entry's digest. -/
theorem download_corrupt_iff (env : Env) (st : UpdSt) (module : String) (u : ModEntry)
    (hu : alookup env.updates module = some u)
    (hex : env.tool_out_exists module = true) :
    (∃ st', download env st module = .error (.updateError corrupted_msg, st')) ↔
      env.hashFn (env.tool_content module) ≠ u.digest := by
  rw [← stream_read_eq (env.tool_content module)]
  obtain ⟨stS, ht, heq⟩ := download_eval env st module u hu
  constructor
  · rintro ⟨st', h⟩
    intro hcontra
    rw [heq, hex] at h
    simp [hcontra] at h
  · intro hne
    refine ⟨stS, ?_⟩
    rw [heq, hex]
    simp [hne]

/-- An archive with no `update/current.json` member yields no
payload. -/
theorem cjson_payload_of_none (env : Env) (m : String) (l : List TarEntry)
    (h : cjson_count_of l = 0) : cjson_payload_of env m l = none := by
  rw [cjson_payload_of]
  have hfind : l.find? (fun e => e.name == "update/current.json") = none := by
    rw [List.find?_eq_none]
    intro x hx hpx
    have hmem : x ∈ l.filter (fun e => e.name == "update/current.json") :=
      List.mem_filter.mpr ⟨hx, hpx⟩
    rw [cjson_count_of, List.length_eq_zero] at h
    simp [h] at hmem
  rw [hfind]

/-- The entry loop of `unpack`, evaluated over a well-formed entry
list: it completes, and the only working-data change is that the
archive's `update/current.json` payload (when one exists) replaces
`new_state[module]`. -/
theorem unpack_go_eval (env : Env) (module : String) (tf_len : Nat) :
    ∀ (entries : List TarEntry), entries.all entry_kind_ok = true →
      (cjson_count_of entries = 0 ∨
        (cjson_count_of entries = 1 ∧ (cjson_payload_of env module entries).isSome)) →
      ∀ (i : Nat) (st : UpdSt),
      ∃ st', unpack_go env module tf_len entries i st = .ok st' ∧
        st'.modules = st.modules ∧ st'.saved = st.saved ∧
        st'.new_state = (match cjson_payload_of env module entries with
          | some e => aset st.new_state module e
          | none => st.new_state) := by
  intro entries
  induction entries with
  | nil =>
      intro _ _ i st
      refine ⟨st, rfl, rfl, rfl, ?_⟩
      rw [cjson_payload_of_none env module [] rfl]
  | cons info rest ih =>
      intro hall hcnt i st
      rw [List.all_cons, Bool.and_eq_true] at hall
      obtain ⟨hinfo, hrest⟩ := hall
      rw [unpack_go]
      by_cases hn1 : info.name = "update"
      · rw [if_pos hn1]
        have hne : (info.name == "update/current.json") = false := by
          rw [hn1]; decide
        have hcount : cjson_count_of (info :: rest) = cjson_count_of rest := by
          simp [cjson_count_of, List.filter_cons, hne]
        have hpay : cjson_payload_of env module (info :: rest) =
            cjson_payload_of env module rest := by
          simp [cjson_payload_of, List.find?_cons, hne]
        have hcnt' : cjson_count_of rest = 0 ∨
            (cjson_count_of rest = 1 ∧ (cjson_payload_of env module rest).isSome) := by
          rw [hcount, hpay] at hcnt
          exact hcnt
        obtain ⟨st', h1, h2, h3, h4⟩ := ih hrest hcnt' (i + 1)
          (set_progress st (some (Frac.ofDiv i tf_len)))
        exact ⟨st', h1, h2.trans rfl, h3.trans rfl, by rw [hpay]; exact h4⟩
      · rw [if_neg hn1]
        by_cases hn2 : info.name = "update/current.json"
        · rw [if_pos hn2]
          have hbe : (info.name == "update/current.json") = true := by simp [hn2]
          have hcount : cjson_count_of (info :: rest) = cjson_count_of rest + 1 := by
            simp [cjson_count_of, List.filter_cons, hbe]
          rcases hcnt with hc0 | ⟨hc1, hps⟩
          · rw [hcount] at hc0
            omega
          · have hrest0 : cjson_count_of rest = 0 := by
              rw [hcount] at hc1
              omega
            have hpayrest : cjson_payload_of env module rest = none :=
              cjson_payload_of_none env module rest hrest0
            have hpay : cjson_payload_of env module (info :: rest) =
                (env.jsonParse info.content).bind (fun s => alookup s module) := by
              simp [cjson_payload_of, List.find?_cons, hbe]
            rw [hpay] at hps
            rcases hjs : env.jsonParse info.content with _ | js
            · rw [hjs] at hps; simp at hps
            · rw [hjs] at hps
              dsimp only [Option.bind] at hps
              rcases hal : alookup js module with _ | entry
              · rw [hal] at hps; simp at hps
              · simp only [hjs, hal]
                obtain ⟨st', h1, h2, h3, h4⟩ := ih hrest (Or.inl hrest0) (i + 1)
                  { set_progress st (some (Frac.ofDiv i tf_len)) with
                    new_state := aset st.new_state module entry }
                refine ⟨st', h1, h2.trans rfl, h3.trans rfl, ?_⟩
                rw [hpay, hjs]
                dsimp only [Option.bind]
                rw [hal, h4, hpayrest]
        · rw [if_neg hn2]
          have hne : (info.name == "update/current.json") = false := by simp [hn2]
          have hcount : cjson_count_of (info :: rest) = cjson_count_of rest := by
            simp [cjson_count_of, List.filter_cons, hne]
          have hpay : cjson_payload_of env module (info :: rest) =
              cjson_payload_of env module rest := by
            simp [cjson_payload_of, List.find?_cons, hne]
          have hcnt' : cjson_count_of rest = 0 ∨
              (cjson_count_of rest = 1 ∧ (cjson_payload_of env module rest).isSome) := by
            rw [hcount, hpay] at hcnt
            exact hcnt
          rw [entry_kind_ok] at hinfo
          have hb1 : (info.name == "update") = false := by simp [hn1]
          have hb2 : (info.name == "update/current.json") = false := by simp [hn2]
          rw [hb1, hb2] at hinfo
          simp only [Bool.false_or] at hinfo
          rcases het : info.etype with _ | _ | t
          · obtain ⟨st', h1, h2, h3, h4⟩ := ih hrest hcnt' (i + 1)
              (emit (set_progress st (some (Frac.ofDiv i tf_len)))
                (.mkdir (path env info.name)))
            exact ⟨st', h1, h2.trans rfl, h3.trans rfl, by rw [hpay]; exact h4⟩
          · obtain ⟨st', h1, h2, h3, h4⟩ := ih hrest hcnt' (i + 1)
              (let st1 := emit (set_progress st (some (Frac.ofDiv i tf_len)))
                (.write (path env info.name ++ ".new"))
               let st2 := if info.mode &&& 1 ≠ 0 then
                  emit st1 (.chmod (path env info.name ++ ".new")) else st1
               { st2 with moves := st2.moves ++ [path env info.name] })
            refine ⟨st', h1, ?_, ?_, ?_⟩
            · refine h2.trans ?_
              dsimp only
              by_cases hm : info.mode &&& 1 ≠ 0
              · rw [if_pos hm]; rfl
              · rw [if_neg hm]; rfl
            · refine h3.trans ?_
              dsimp only
              by_cases hm : info.mode &&& 1 ≠ 0
              · rw [if_pos hm]; rfl
              · rw [if_neg hm]; rfl
            · rw [hpay]
              refine h4.trans ?_
              rcases cjson_payload_of env module rest with _ | e <;>
                dsimp only <;>
                by_cases hm : info.mode &&& 1 ≠ 0 <;>
                first
                  | (rw [if_pos hm]; rfl)
                  | (rw [if_neg hm]; rfl)
          · simp [het] at hinfo

/-- `unpack` evaluated for one module over its archive. -/
theorem unpack_eval (env : Env) (st : UpdSt) (m : String) (h : unpack_ok env m = true) :
    ∃ st', unpack env st m = .ok st' ∧ st'.modules = st.modules ∧ st'.saved = st.saved ∧
      st'.new_state = (match cjson_payload env m with
        | some e => aset st.new_state m e
        | none => st.new_state) := by
  rw [unpack_ok, Bool.and_eq_true] at h
  obtain ⟨hall, hc⟩ := h
  rw [Bool.or_eq_true, Bool.and_eq_true] at hc
  have hc' : cjson_count_of (env.archive m) = 0 ∨
      (cjson_count_of (env.archive m) = 1 ∧
        (cjson_payload_of env m (env.archive m)).isSome) := by
    rcases hc with hc | ⟨hc1, hc2⟩
    · exact Or.inl (beq_iff_eq.mp hc)
    · exact Or.inr ⟨beq_iff_eq.mp hc1, hc2⟩
  exact unpack_go_eval env m (env.archive m).length (env.archive m) hall hc' 0 st

/-- The `UNPACKING` loop over all stale modules: each module's payload
replaces its own `new_state` entry, in order. -/
theorem foldE_unpack (env : Env) : ∀ (mods : List String) (st : UpdSt),
    (∀ m ∈ mods, unpack_ok env m = true) →
    ∃ st', foldE (unpack env) mods st = .ok st' ∧
      st'.modules = st.modules ∧ st'.saved = st.saved ∧
      st'.new_state = mods.foldl (fun s m =>
        match cjson_payload env m with
        | some e => aset s m e
        | none => s) st.new_state := by
  intro mods
  induction mods with
  | nil => intro st _; exact ⟨st, rfl, rfl, rfl, rfl⟩
  | cons m rest ih =>
      intro st h
      obtain ⟨st1, h1, h2, h3, h4⟩ := unpack_eval env st m (h m (by simp))
      obtain ⟨st', h1', h2', h3', h4'⟩ := ih st1 (fun x hx => h x (by simp [hx]))
      refine ⟨st', ?_, h2'.trans h2, h3'.trans h3, ?_⟩
      · rw [foldE, h1]; exact h1'
      · rw [h4', h4, List.foldl_cons]

/-- Lookup after a dict assignment. -/
theorem alookup_aset : ∀ (l : Snapshot) (k : String) (v : ModEntry) (q : String),
    alookup (aset l k v) q = if q = k then some v else alookup l q := by
  intro l
  induction l with
  | nil =>
      intro k v q
      by_cases hq : q = k
      · simp [aset, alookup, hq]
      · simp [aset, alookup, hq, show ¬ k = q from fun h => hq h.symm]
  | cons p rest ih =>
      intro k v q
      obtain ⟨a, b⟩ := p
      rw [aset]
      by_cases hak : a = k
      · rw [if_pos hak]
        subst hak
        by_cases hq : q = a
        · simp [alookup, hq]
        · simp [alookup, hq, show ¬ a = q from fun h => hq h.symm]
      · rw [if_neg hak]
        by_cases hqa : a = q
        · subst hqa
          have hqk : ¬ a = k := hak
          simp [alookup, hqk]
        · simp [alookup, hqa, ih]

/-- Lookup after the unpack-stage merge: an updated module's entry is
its own archive's payload; everything else keeps the prior entry. -/
theorem merged_fold_lookup (env : Env) : ∀ (mods : List String) (s : Snapshot),
    (∀ m ∈ mods, (cjson_payload env m).isSome) → ∀ k,
    alookup (mods.foldl (fun s m =>
      match cjson_payload env m with
      | some e => aset s m e
      | none => s) s) k =
      if k ∈ mods then cjson_payload env k else alookup s k := by
  intro mods
  induction mods with
  | nil => intro s _ k; simp
  | cons m rest ih =>
      intro s hp k
      obtain ⟨e, he⟩ := Option.isSome_iff_exists.mp (hp m (by simp))
      rw [List.foldl_cons]
      simp only [he]
      rw [ih (aset s m e) (fun x hx => hp x (by simp [hx])) k]
      by_cases hk : k ∈ rest
      · simp [hk, List.mem_cons]
      · by_cases hkm : k = m
        · subst hkm
          simp [hk, alookup_aset, he, List.mem_cons]
        · simp [hk, hkm, alookup_aset, List.mem_cons]

/-- A module whose archive has no `update/current.json` keeps its prior
entry through the merge, whatever the other modules do. -/
theorem merged_fold_lookup_none (env : Env) (k : String)
    (hk : cjson_payload env k = none) : ∀ (mods : List String) (s : Snapshot),
    alookup (mods.foldl (fun s m =>
      match cjson_payload env m with
      | some e => aset s m e
      | none => s) s) k = alookup s k := by
  intro mods
  induction mods with
  | nil => intro s; rfl
  | cons m rest ih =>
      intro s
      rw [List.foldl_cons]
      rcases he : cjson_payload env m with _ | e
      · simp only [he]
        exact ih s
      · have hkm : k ≠ m := by
          intro hkm'
          rw [hkm', he] at hk
          exact Option.noConfusion hk
        simp only [he]
        rw [ih (aset s m e), alookup_aset]
        simp [hkm]

/-- No `update/current.json` member, no payload (archive level). -/
theorem cjson_payload_none (env : Env) (m : String) (h : cjson_count env m = 0) :
    cjson_payload env m = none :=
  cjson_payload_of_none env m (env.archive m) h

theorem events_ok_ext_refl (env : Env) (a : UpdSt) : events_ok_ext env a a :=
  ⟨[], by simp, rfl⟩

theorem events_ok_ext_trans {env : Env} {a b c : UpdSt} (h1 : events_ok_ext env a b)
    (h2 : events_ok_ext env b c) : events_ok_ext env a c := by
  obtain ⟨Δ1, he1, ho1⟩ := h1
  obtain ⟨Δ2, he2, ho2⟩ := h2
  refine ⟨Δ1 ++ Δ2, ?_, ?_⟩
  · rw [he2, he1, List.append_assoc]
  · rw [evs_ok_append, ho1, ho2]; rfl

theorem trace_ok_events {env : Env} {a b : UpdSt} (h : trace_ok env a b) :
    events_ok_ext env a b := h.2

theorem only_events_mem {a b : UpdSt} (h : only_events a b) {e : Ev}
    (he : e ∈ a.events) : e ∈ b.events := by
  obtain ⟨_, _, _, _, _, _, _, _, _, Δ, hΔ⟩ := h
  rw [hΔ]
  exact List.mem_append_left Δ he

/-- The fields of `finish`: state `DONE`, message cleared, and the
working `new_state` committed to `update/current.json`. -/
theorem finish_eval (env : Env) (st : UpdSt) :
    (finish env st).state = "DONE" ∧ (finish env st).message = none ∧
    (finish env st).modules = st.modules ∧
    (finish env st).saved = some st.new_state ∧
    Ev.write (ud_file env "current.json") ∈ (finish env st).events := by
  rw [finish]
  have hA := only_events_move_files env (set_state (set_progress st none) "FINISHING")
  have hB := only_events_delete_obsolete env
    (move_files env (set_state (set_progress st none) "FINISHING"))
  have hAB := only_events_trans hA hB
  have hC := only_events_clean_new env (save_state env
    (delete_obsolete env (move_files env (set_state (set_progress st none) "FINISHING"))))
  refine ⟨rfl, rfl, ?_, ?_, ?_⟩
  · show (clean_new env (save_state env _)).modules = st.modules
    rw [hC.2.2.2.2.2.1]
    exact hAB.2.2.2.2.2.1
  · show (clean_new env (save_state env _)).saved = some st.new_state
    rw [hC.2.2.2.2.2.2.2.2.1]
    show some (delete_obsolete env (move_files env
      (set_state (set_progress st none) "FINISHING"))).new_state = some st.new_state
    rw [hAB.2.2.2.2.2.2.1]
    rfl
  · have hmem : Ev.write (ud_file env "current.json") ∈
        (save_state env (delete_obsolete env (move_files env
          (set_state (set_progress st none) "FINISHING")))).events := by
      show Ev.write (ud_file env "current.json") ∈ _ ++ [Ev.write (ud_file env "current.json")]
      simp
    have hmem2 := only_events_mem hC hmem
    show Ev.write (ud_file env "current.json") ∈ _ ++ [Ev.setProgress none] ++ [Ev.setState "DONE"]
    rw [List.append_assoc]
    exact List.mem_append_left _ hmem2

/-- Under a writable update directory, a fetchable manifest, a
nonempty stale set, and a proceeding user, `update` runs its pipeline
from the `UPDATE AVAILABLE` state. -/
theorem update_entry (env : Env) (hce : env.current_exists = true)
    (hcw : env.can_write = true) (hlog : env.log_ok = true)
    (hne : check_versions env.force env.current_state env.updates ≠ [])
    (hproc : env.proceeded = true) :
    update env = update_core env (avail_st env) := by
  have h1 : load_state env init_st = .ok init_st := by
    rw [load_state, if_pos hce]
  have h2 : test_write env init_st = .ok (emit (emit init_st
      (.write (ud_file env "test.txt"))) (.unlink (ud_file env "test.txt"))) := by
    rw [test_write, if_pos hcw, if_pos hlog]
  simp only [update, h1, h2]
  rw [if_neg hne, if_pos hproc]
  rfl

/-- With no `monkeypatch` member, everything recorded up to the
`UPDATE AVAILABLE` wait stays inside the update directory. -/
theorem avail_evs_ok (env : Env) (hmp : env.monkeypatch = none) :
    evs_ok (updatedir env) (avail_st env).events = true := by
  simp [avail_st, checked_st, check_updates, hmp, set_state, emit, init_st,
    evs_ok, ev_ok, touched_paths, inside_ud]

/-- The happy path of `update_core`: every download verifies and every
archive unpacks, so the session finishes with the merged snapshot
committed. -/
theorem update_core_eval_done (env : Env) (st : UpdSt)
    (hcur : ∀ m ∈ st.modules, (alookup env.current_state m).isSome)
    (hdl : ∀ m ∈ st.modules, dl_ok env m = true)
    (hup : ∀ m ∈ st.modules, unpack_ok env m = true) :
    ∃ stF, update_core env st = .ok stF ∧ stF.state = "DONE" ∧ stF.message = none ∧
      stF.modules = st.modules ∧
      stF.saved = some (st.modules.foldl (fun s m =>
        match cjson_payload env m with
        | some e => aset s m e
        | none => s) env.current_state) ∧
      Ev.write (ud_file env "current.json") ∈ stF.events := by
  obtain ⟨st2, hf2, htr2⟩ := foldE_ok_of (prepare env) (trace_ok env) (trace_ok_refl env)
    (fun a b c h1 h2 => trace_ok_trans h1 h2)
    (set_state (set_progress { st with new_state := env.current_state } (some Frac.zero))
      "PREPARING").modules
    (set_state (set_progress { st with new_state := env.current_state } (some Frac.zero))
      "PREPARING")
    (fun st0 m hm => prepare_trace env st0 m (hcur m hm))
  have hm2 : st2.modules = st.modules := htr2.1.1
  have hn2 : st2.new_state = env.current_state := htr2.1.2.1
  obtain ⟨st3, hf3, htr3⟩ := foldE_ok_of (download env) (trace_ok env) (trace_ok_refl env)
    (fun a b c h1 h2 => trace_ok_trans h1 h2)
    (set_state (set_progress st2 (some Frac.zero)) "DOWNLOADING").modules
    (set_state (set_progress st2 (some Frac.zero)) "DOWNLOADING")
    (fun st0 m hm => download_ok env st0 m (hdl m (by rw [← hm2]; exact hm)))
  have hm3 : st3.modules = st.modules := (htr3.1.1).trans hm2
  have hn3 : st3.new_state = env.current_state := (htr3.1.2.1).trans hn2
  have hco := only_events_clean_old env st3
  have hmco : (clean_old env st3).modules = st3.modules := hco.2.2.2.2.2.1
  have hnco : (clean_old env st3).new_state = st3.new_state := hco.2.2.2.2.2.2.1
  have hmodU : (set_state (set_progress { clean_old env st3 with can_cancel := false }
      (some Frac.zero)) "UNPACKING").modules = st.modules := hmco.trans hm3
  obtain ⟨st4, hf4, hm4, hs4, hn4⟩ := foldE_unpack env
    (set_state (set_progress { clean_old env st3 with can_cancel := false }
      (some Frac.zero)) "UNPACKING").modules
    (set_state (set_progress { clean_old env st3 with can_cancel := false }
      (some Frac.zero)) "UNPACKING")
    (fun m hm => hup m (by rw [← hmodU]; exact hm))
  have hn4' : st4.new_state = st.modules.foldl (fun s m =>
      match cjson_payload env m with
      | some e => aset s m e
      | none => s) env.current_state := by
    rw [hn4]
    show (clean_old env st3).modules.foldl _ (clean_old env st3).new_state = _
    rw [hmco, hnco, hm3, hn3]
  obtain ⟨g1, g2, g3, g4, g5⟩ := finish_eval env st4
  refine ⟨finish env st4, ?_, g1, g2, ?_, ?_, g5⟩
  · simp only [update_core, hf2, hf3, hf4]
  · rw [g3]
    exact hm4.trans hmodU
  · rw [g4, hn4']

/-- The failure path of `update_core` on a digest mismatch: the
downloads before `m` verify, `m`'s does not; the pipeline stops with
the corruption `UpdateError`, having touched only the update
directory. -/
theorem update_core_err (env : Env) (st : UpdSt) (pre post : List String) (m : String)
    (u : ModEntry)
    (hmods : st.modules = pre ++ m :: post)
    (hcur : ∀ x ∈ st.modules, (alookup env.current_state x).isSome)
    (hpre : ∀ x ∈ pre, dl_ok env x = true)
    (hu : alookup env.updates m = some u)
    (hex : env.tool_out_exists m = true)
    (hne : env.hashFn (stream_read (env.tool_content m)) ≠ u.digest) :
    ∃ stE, update_core env st = .error (.updateError corrupted_msg, stE) ∧
      events_ok_ext env st stE := by
  obtain ⟨st2, hf2, htr2⟩ := foldE_ok_of (prepare env) (trace_ok env) (trace_ok_refl env)
    (fun a b c h1 h2 => trace_ok_trans h1 h2)
    (set_state (set_progress { st with new_state := env.current_state } (some Frac.zero))
      "PREPARING").modules
    (set_state (set_progress { st with new_state := env.current_state } (some Frac.zero))
      "PREPARING")
    (fun st0 x hx => prepare_trace env st0 x (hcur x hx))
  have hm2 : st2.modules = st.modules := htr2.1.1
  have hmods2 : (set_state (set_progress st2 (some Frac.zero)) "DOWNLOADING").modules =
      pre ++ m :: post := hm2.trans hmods
  obtain ⟨stE, hfE, htrE⟩ := foldE_err_at (download env) (trace_ok env)
    (fun a b c h1 h2 => trace_ok_trans h1 h2) (.updateError corrupted_msg) m post pre
    (set_state (set_progress st2 (some Frac.zero)) "DOWNLOADING")
    (fun st0 x hx => download_ok env st0 x (hpre x hx))
    (fun st0 => download_err_digest env st0 m u hu hex hne)
  refine ⟨stE, ?_, ?_⟩
  · simp only [update_core, hf2]
    rw [hmods2, hfE]
  · have e0 : events_ok_ext env st
        (set_state (set_progress { st with new_state := env.current_state }
          (some Frac.zero)) "PREPARING") := by
      refine ⟨[.setProgress (some Frac.zero), .setState "PREPARING"], ?_, ?_⟩
      · simp [set_state, set_progress, emit]
      · simp [evs_ok, ev_ok, touched_paths]
    have e1 : events_ok_ext env st2
        (set_state (set_progress st2 (some Frac.zero)) "DOWNLOADING") := by
      refine ⟨[.setProgress (some Frac.zero), .setState "DOWNLOADING"], ?_, ?_⟩
      · simp [set_state, set_progress, emit]
      · simp [evs_ok, ev_ok, touched_paths]
    exact events_ok_ext_trans e0 (events_ok_ext_trans (trace_ok_events htr2)
      (events_ok_ext_trans e1 (trace_ok_events htrE)))

/-- The whole worker on a clean full run: final state `DONE`, message
cleared, and the merged snapshot saved to `update/current.json`. -/
theorem run_done (env : Env)
    (hce : env.current_exists = true) (hcw : env.can_write = true)
    (hlog : env.log_ok = true) (hproc : env.proceeded = true)
    (hne : check_versions env.force env.current_state env.updates ≠ [])
    (hdl : ∀ m ∈ check_versions env.force env.current_state env.updates,
      dl_ok env m = true)
    (hup : ∀ m ∈ check_versions env.force env.current_state env.updates,
      unpack_ok env m = true) :
    (run env).state = "DONE" ∧ (run env).message = none ∧
    (run env).saved = some (merged env
      (check_versions env.force env.current_state env.updates)) ∧
    Ev.write (ud_file env "current.json") ∈ (run env).events := by
  have hcur : ∀ m ∈ check_versions env.force env.current_state env.updates,
      (alookup env.current_state m).isSome :=
    fun m hm => (check_versions_mem env.force env.updates env.current_state m hm).1
  obtain ⟨stF, hcore, h1, h2, h3, h4, h5⟩ := update_core_eval_done env (avail_st env)
    hcur hdl hup
  rw [run, update_entry env hce hcw hlog hne hproc, hcore]
  have hco := only_events_clean_old env stF
  refine ⟨?_, ?_, ?_, ?_⟩
  · show (clean_old env stF).state = "DONE"
    rw [hco.1]; exact h1
  · show (clean_old env stF).message = none
    rw [hco.2.1]; exact h2
  · show (clean_old env stF).saved = _
    rw [hco.2.2.2.2.2.2.2.2.1]; exact h4
  · exact only_events_mem hco h5

/-- The whole worker on a digest-mismatch run: final state `ERROR`,
the corruption message, and every filesystem effect of the session
confined to the update directory. -/
theorem run_err_digest (env : Env) (pre post : List String) (m : String) (u : ModEntry)
    (hce : env.current_exists = true) (hcw : env.can_write = true)
    (hlog : env.log_ok = true) (hproc : env.proceeded = true)
    (hmp : env.monkeypatch = none)
    (hmods : check_versions env.force env.current_state env.updates = pre ++ m :: post)
    (hpre : ∀ x ∈ pre, dl_ok env x = true)
    (hu : alookup env.updates m = some u)
    (hex : env.tool_out_exists m = true)
    (hne : env.hashFn (stream_read (env.tool_content m)) ≠ u.digest) :
    (run env).state = "ERROR" ∧ (run env).message = some corrupted_msg ∧
    evs_ok (updatedir env) (run env).events = true := by
  have hnil : check_versions env.force env.current_state env.updates ≠ [] := by
    rw [hmods]; simp
  have hcur : ∀ x ∈ check_versions env.force env.current_state env.updates,
      (alookup env.current_state x).isSome :=
    fun x hx => (check_versions_mem env.force env.updates env.current_state x hx).1
  obtain ⟨stE, hcore, hext⟩ := update_core_err env (avail_st env) pre post m u
    hmods hcur hpre hu hex hne
  rw [run, update_entry env hce hcw hlog hnil hproc, hcore]
  refine ⟨?_, ?_, ?_⟩
  · show (clean_old env (handle (.error (.updateError corrupted_msg, stE)))).state = "ERROR"
    rw [(only_events_clean_old env _).1]
    rfl
  · show (clean_old env (handle (.error (.updateError corrupted_msg, stE)))).message =
      some corrupted_msg
    rw [(only_events_clean_old env _).2.1]
    rfl
  · rw [clean_old_events]
    rw [evs_ok_append, Bool.and_eq_true]
    constructor
    · show evs_ok (updatedir env) (stE.events ++ [Ev.setState "ERROR"]) = true
      rw [evs_ok_append, Bool.and_eq_true]
      constructor
      · obtain ⟨Δ, hΔ, hΔok⟩ := hext
        rw [hΔ, evs_ok_append, avail_evs_ok env hmp, hΔok]
        rfl
      · simp [evs_ok, ev_ok, touched_paths]
    · simp [evs_ok, List.all_map, ev_ok, touched_paths, inside_ud, Function.comp]

/-! ### Claim theorems -/

/-- C1: after the delta tool exits with cancellation not requested,
`download(m)` raises an `UpdateError` when the output file
`<updatedir>/<m>.update.new` is missing; otherwise it computes SHA-256
over the downloaded file in streaming chunks (the streamed bytes are
exactly the file) and raises the corruption `UpdateError` iff the hex
digest differs from the server manifest entry's digest; on a digest
mismatch no effect of the session touches a path outside the update
directory and the controller ends in the `ERROR` state with the
corruption message. -/
theorem sha256_digest_enforcement (env : Env) (pre post : List String) (m : String)
    (u : ModEntry)
    (hce : env.current_exists = true) (hcw : env.can_write = true)
    (hlog : env.log_ok = true) (hproc : env.proceeded = true)
    (hmp : env.monkeypatch = none)
    (hmods : check_versions env.force env.current_state env.updates = pre ++ m :: post)
    (hpre : ∀ x ∈ pre, dl_ok env x = true)
    (hu : alookup env.updates m = some u)
    (hex : env.tool_out_exists m = true)
    (hne : env.hashFn (env.tool_content m) ≠ u.digest) :
    (∀ c, stream_read c = c) ∧
    (∀ (st : UpdSt) (x : String) (ux : ModEntry), alookup env.updates x = some ux →
      env.tool_out_exists x = false →
      ∃ st', download env st x = .error (.updateError not_downloaded_msg, st')) ∧
    (∀ (st : UpdSt) (x : String) (ux : ModEntry), alookup env.updates x = some ux →
      env.tool_out_exists x = true →
      ((∃ st', download env st x = .error (.updateError corrupted_msg, st')) ↔
        env.hashFn (env.tool_content x) ≠ ux.digest)) ∧
    (run env).state = "ERROR" ∧
    (run env).message = some corrupted_msg ∧
    evs_ok (updatedir env) (run env).events = true := by
  have hne' : env.hashFn (stream_read (env.tool_content m)) ≠ u.digest := by
    rw [stream_read_eq]; exact hne
  obtain ⟨h4, h5, h6⟩ := run_err_digest env pre post m u hce hcw hlog hproc hmp hmods
    hpre hu hex hne'
  refine ⟨stream_read_eq, ?_, ?_, h4, h5, h6⟩
  · intro st x ux hux hexf
    obtain ⟨st', hd, _⟩ := download_err_missing env st x ux hux hexf
    exact ⟨st', hd⟩
  · intro st x ux hux hext
    exact download_corrupt_iff env st x ux hux hext

/-- Witness for C1 at the concrete bad-digest environment. -/
theorem sha256_digest_enforcement_witness :
    check_versions envBadDigest.force envBadDigest.current_state envBadDigest.updates =
      [] ++ "m" :: [] ∧
    envBadDigest.hashFn (envBadDigest.tool_content "m") ≠ entryNew.digest ∧
    (run envBadDigest).state = "ERROR" ∧
    (run envBadDigest).message = some corrupted_msg ∧
    evs_ok (updatedir envBadDigest) (run envBadDigest).events = true := by
  have h := sha256_digest_enforcement envBadDigest [] [] "m" entryNew rfl rfl rfl rfl rfl
    (by decide) (by intro x hx; cases hx) rfl rfl (by decide)
  exact ⟨by decide, by decide, h.2.2.2.1, h.2.2.2.2.1, h.2.2.2.2.2⟩

/-- C2 counterexample: two environments identical except for the
`monkeypatch` member of the parsed manifest produce different observable
behaviour — `check_updates` executes the payload instead of ignoring
it. -/
theorem monkeypatch_counterexample :
    envMP = { envNoMP with monkeypatch := some "evil()" } ∧
    (run envMP).events ≠ (run envNoMP).events ∧
    Ev.execCode "evil()" ∈ (run envMP).events := by
  exact ⟨rfl, by decide, by decide⟩

/-- C2 amended: `check_updates` downloads `updates.json` and stores the
parsed map, but a `monkeypatch` member is *executed* (`exec`), not
ignored: with no such member the fetch only writes `updates.json`; with
one, it additionally executes the payload. -/
theorem monkeypatch_executed (env : Env) (st : UpdSt) :
    (env.monkeypatch = none →
      check_updates env st = emit st (.write (ud_file env "updates.json"))) ∧
    (∀ c, env.monkeypatch = some c →
      check_updates env st =
        emit (emit st (.write (ud_file env "updates.json"))) (.execCode c)) := by
  constructor
  · intro h
    rw [check_updates, h]
  · intro c h
    rw [check_updates, h]

/-- Witness for the amended C2. -/
theorem monkeypatch_executed_witness :
    check_updates envMP init_st =
      emit (emit init_st (.write (ud_file envMP "updates.json"))) (.execCode "evil()") :=
  (monkeypatch_executed envMP init_st).2 "evil()" rfl

/-- C3 (claim refuted by the code, spec §9 flags it as a bug): the
seeds `download` passes after `-i` are `len(modules)` copies of the
*current* module's seed archive, not one seed per module as the spec's
command-line contract states. -/
theorem seed_arguments_bug :
    seed_args (download_cmd env1 ["a", "b"] "a" entryNew) =
      ["/game/update/a.update", "/game/update/a.update"] ∧
    spec_seed_args env1 ["a", "b"] =
      ["/game/update/a.update", "/game/update/b.update"] ∧
    seed_args (download_cmd env1 ["a", "b"] "a" entryNew) ≠
      spec_seed_args env1 ["a", "b"] := by
  exact ⟨by decide, by decide, by decide⟩

/-- C4: `run` maps a cancellation exception to the `CANCELLED` terminal
state (message cleared), any `UpdateError` or other exception to the
`ERROR` terminal state with `message` set to the exception's user-facing
string, and on every exit path — success, error or cancel — the
`clean_old` cleanup removing `<module>.update` for each stale module
runs. -/
theorem run_exception_paths :
    (∀ env : Env, (run env).state = match update env with
      | .ok st => st.state
      | .error (.cancelled, _) => "CANCELLED"
      | .error (.updateError _, _) => "ERROR"
      | .error (.otherExc _, _) => "ERROR") ∧
    (∀ env : Env, (run env).message = match update env with
      | .ok st => st.message
      | .error (.cancelled, _) => none
      | .error (.updateError msg, _) => some msg
      | .error (.otherExc msg, _) => some msg) ∧
    (∀ env : Env, (run env).events = (handle (update env)).events ++
      (stOf (update env)).modules.map
        (fun i => Ev.unlink (ud_file env (i ++ ".update")))) := by
  refine ⟨?_, ?_, ?_⟩
  · intro env
    rw [run, (only_events_clean_old env _).1]
    rcases update env with ⟨exc, st2⟩ | st
    · rcases exc <;> rfl
    · rfl
  · intro env
    rw [run, (only_events_clean_old env _).2.1]
    rcases update env with ⟨exc, st2⟩ | st
    · rcases exc <;> rfl
    · rfl
  · intro env
    have hmods : (handle (update env)).modules = (stOf (update env)).modules := by
      rcases update env with ⟨exc, st2⟩ | st
      · rcases exc <;> rfl
      · rfl
    rw [run, clean_old_events, hmods]

/-- C5: `check_versions` computes exactly the stale set: a module is
listed iff it has entries in both the installed snapshot and the server
manifest and the versions differ (or `force` is set); a name present in
only one map is never listed. -/
theorem check_versions_stale_set (force : Bool) (cur upd : Snapshot)
    (hnd : (cur.map Prod.fst).Nodup) (m : String) :
    m ∈ check_versions force cur upd ↔
      (∃ d u, alookup cur m = some d ∧ alookup upd m = some u ∧
        (d.version ≠ u.version ∨ force = true)) :=
  check_versions_iff force upd cur hnd m

/-- Witness for C5. -/
theorem check_versions_stale_set_witness :
    (([("m", entryOld)] : Snapshot).map Prod.fst).Nodup ∧
    ("m" ∈ check_versions false [("m", entryOld)] [("m", entryNew)] ↔
      (∃ d u, alookup [("m", entryOld)] "m" = some d ∧
        alookup [("m", entryNew)] "m" = some u ∧
        (d.version ≠ u.version ∨ false = true))) :=
  ⟨by decide, check_versions_stale_set false [("m", entryOld)] [("m", entryNew)]
    (by decide) "m"⟩

/-- C6: `unpack(m)` parses the archive's `update/current.json` and
replaces only `new_state[m]` with that payload's entry for `m`; after
the session reaches `DONE`, the snapshot written to
`update/current.json` is the prior installed snapshot with, for each
updated module, that module's entry replaced by its own archive's
payload. -/
theorem snapshot_equivalence (env : Env)
    (hce : env.current_exists = true) (hcw : env.can_write = true)
    (hlog : env.log_ok = true) (hproc : env.proceeded = true)
    (hne : check_versions env.force env.current_state env.updates ≠ [])
    (hdl : ∀ m ∈ check_versions env.force env.current_state env.updates,
      dl_ok env m = true)
    (hup : ∀ m ∈ check_versions env.force env.current_state env.updates,
      unpack_ok env m = true ∧ cjson_count env m = 1) :
    (∀ (st : UpdSt) (m : String),
      m ∈ check_versions env.force env.current_state env.updates →
      ∃ st', unpack env st m = .ok st' ∧
        ∀ k, alookup st'.new_state k =
          if k = m then cjson_payload env m else alookup st.new_state k) ∧
    (run env).state = "DONE" ∧
    (∃ ns, (run env).saved = some ns ∧
      ∀ k, alookup ns k =
        if k ∈ check_versions env.force env.current_state env.updates then
          cjson_payload env k
        else alookup env.current_state k) ∧
    Ev.write (ud_file env "current.json") ∈ (run env).events := by
  have hpay : ∀ m ∈ check_versions env.force env.current_state env.updates,
      (cjson_payload env m).isSome := by
    intro m hm
    obtain ⟨hok, hc1⟩ := hup m hm
    rw [unpack_ok, Bool.and_eq_true] at hok
    have hok2 := hok.2
    rw [Bool.or_eq_true] at hok2
    rcases hok2 with hc | hc
    · rw [beq_iff_eq, hc1] at hc
      cases hc
    · rw [Bool.and_eq_true] at hc
      exact hc.2
  obtain ⟨h1, h2, h3, h4⟩ := run_done env hce hcw hlog hproc hne hdl
    (fun m hm => (hup m hm).1)
  refine ⟨?_, h1, ⟨merged env _, h3, ?_⟩, h4⟩
  · intro st m hm
    obtain ⟨st', hu1, _, _, hu4⟩ := unpack_eval env st m ((hup m hm).1)
    obtain ⟨e, he⟩ := Option.isSome_iff_exists.mp (hpay m hm)
    refine ⟨st', hu1, ?_⟩
    intro k
    rw [hu4, he]
    dsimp only
    exact alookup_aset st.new_state m e k
  · intro k
    exact merged_fold_lookup env
      (check_versions env.force env.current_state env.updates) env.current_state hpay k

/-- Witness for C6 at the concrete clean-run environment. -/
theorem snapshot_equivalence_witness :
    (unpack_ok env1 "m" = true ∧ cjson_count env1 "m" = 1) ∧
    check_versions env1.force env1.current_state env1.updates = ["m"] ∧
    (run env1).state = "DONE" := by
  have h := snapshot_equivalence env1 rfl rfl rfl rfl (by decide)
    (by
      intro x hx
      rw [show check_versions env1.force env1.current_state env1.updates = ["m"]
        from by decide] at hx
      rw [List.mem_singleton] at hx
      subst hx
      decide)
    (by
      intro x hx
      rw [show check_versions env1.force env1.current_state env1.updates = ["m"]
        from by decide] at hx
      rw [List.mem_singleton] at hx
      subst hx
      exact ⟨by decide, by decide⟩)
  exact ⟨⟨by decide, by decide⟩, by decide, h.2.1⟩

/-- C7: the delta-tool progress-line parser: a `PROGRESS` line whose
raw value is 100 sets reported progress to exactly 1.0 without touching
the recorded start; the first non-100 `PROGRESS` line records its value
divided by 100 as the start; each later non-100 line reports
`(raw/100 - start) / (1 - start)`; `ENDPROGRESS` clears both; any other
line only goes to the log verbatim (every line is logged). -/
theorem progress_line_protocol :
    (∀ raw : Frac, raw.div100.veq Frac.one = raw.veq ⟨100, 1⟩) ∧
    (∀ (s : Option Frac) (st : UpdSt) (raw : Frac), raw.veq ⟨100, 1⟩ = true →
      process_line s st (.progress raw) =
        (s, set_progress (emit st (.logLine (.progress raw))) (some Frac.one))) ∧
    (∀ (st : UpdSt) (raw : Frac), raw.veq ⟨100, 1⟩ = false →
      process_line none st (.progress raw) =
        (some raw.div100,
         set_progress (emit st (.logLine (.progress raw))) (some Frac.zero))) ∧
    (∀ (s0 : Frac) (st : UpdSt) (raw : Frac), raw.veq ⟨100, 1⟩ = false →
      process_line (some s0) st (.progress raw) =
        (some s0, set_progress (emit st (.logLine (.progress raw)))
          (some ((raw.div100.sub s0).divBy (Frac.one.sub s0))))) ∧
    (∀ (s : Option Frac) (st : UpdSt), process_line s st .endprogress =
      (none, set_progress (emit st (.logLine .endprogress)) none)) ∧
    (∀ (s : Option Frac) (st : UpdSt) (l : String), process_line s st (.other l) =
      (s, emit st (.logLine (.other l)))) := by
  have hv : ∀ raw : Frac, raw.div100.veq Frac.one = raw.veq ⟨100, 1⟩ := by
    intro raw
    simp only [Frac.veq, Frac.div100, Frac.one]
    congr 1
    push_cast
    ring
  refine ⟨hv, ?_, ?_, ?_, ?_, ?_⟩
  · intro s st raw h
    have hc : raw.div100.veq Frac.one = true := by rw [hv, h]
    simp [process_line, hc]
  · intro st raw h
    have hc : raw.div100.veq Frac.one = false := by rw [hv, h]
    simp [process_line, hc]
  · intro s0 st raw h
    have hc : raw.div100.veq Frac.one = false := by rw [hv, h]
    simp [process_line, hc]
  · intro s st
    rfl
  · intro s st l
    rfl

/-- Witness for C7 at concrete lines. -/
theorem progress_line_protocol_witness :
    (Frac.veq ⟨100, 1⟩ ⟨100, 1⟩ = true ∧
     process_line none init_st (.progress ⟨100, 1⟩) =
       (none, set_progress (emit init_st (.logLine (.progress ⟨100, 1⟩)))
         (some Frac.one))) ∧
    (Frac.veq ⟨50, 1⟩ ⟨100, 1⟩ = false ∧
     process_line none init_st (.progress ⟨50, 1⟩) =
       (some (Frac.div100 ⟨50, 1⟩),
        set_progress (emit init_st (.logLine (.progress ⟨50, 1⟩)))
          (some Frac.zero))) ∧
    (Frac.veq ⟨75, 1⟩ ⟨100, 1⟩ = false ∧
     process_line (some ⟨1, 2⟩) init_st (.progress ⟨75, 1⟩) =
       (some ⟨1, 2⟩, set_progress (emit init_st (.logLine (.progress ⟨75, 1⟩)))
         (some ((Frac.div100 ⟨75, 1⟩).sub ⟨1, 2⟩ |>.divBy (Frac.one.sub ⟨1, 2⟩))))) ∧
    process_line (some ⟨1, 2⟩) init_st .endprogress =
      (none, set_progress (emit init_st (.logLine .endprogress)) none) ∧
    process_line (some ⟨1, 2⟩) init_st (.other "hi") =
      (some ⟨1, 2⟩, emit init_st (.logLine (.other "hi"))) := by
  refine ⟨⟨by decide, ?_⟩, ⟨by decide, ?_⟩, ⟨by decide, ?_⟩, ?_, ?_⟩
  · exact progress_line_protocol.2.1 none init_st ⟨100, 1⟩ (by decide)
  · exact progress_line_protocol.2.2.1 init_st ⟨50, 1⟩ (by decide)
  · exact progress_line_protocol.2.2.2.1 ⟨1, 2⟩ init_st ⟨75, 1⟩ (by decide)
  · exact progress_line_protocol.2.2.2.2.1 (some ⟨1, 2⟩) init_st
  · exact progress_line_protocol.2.2.2.2.2 (some ⟨1, 2⟩) init_st "hi"

/-- Helper for C8: the names surviving the `filterMap` of
`prepare_records` are the names passing the emission filter. -/
theorem filterMap_names (f : String → Option TarRecord) (p : String → Bool)
    (hf : ∀ name, (match f name with
      | some r => r.name = name ∧ p name = true
      | none => p name = false)) :
    ∀ l : List String, ((l.filterMap f).map (fun r => r.name)) = l.filter p := by
  intro l
  induction l with
  | nil => rfl
  | cons x rest ih =>
      rw [List.filterMap_cons, List.filter_cons]
      have hx := hf x
      rcases hfx : f x with _ | r <;> rw [hfx] at hx
      · rw [hx]
        simp [ih]
      · obtain ⟨hname, hp⟩ := hx
        rw [hp]
        simp [ih, hname]

/-- C8: the archive `prepare(m)` writes holds the sorted union of the
installed entry's `files` and `directories` followed by the appended
`update` and `update/current.json`, with files missing on disk or not
regular skipped; directory records have size 0, and every record is
canonicalized to `uid=gid=1000`, `mtime=0`, `uname=gname="renpy"`, and
mode `0o777` for directories and `xbit` entries, `0o666` otherwise. -/
theorem prepare_records_canonical (env : Env) (state : ModEntry)
    (hreg : ∃ sz, env.disk (path env "update/current.json") = .regular sz) :
    ((prepare_records env state).map (fun r => r.name) =
      (pysorted (state.files ++ state.directories)).filter
        (prepare_emittable env state) ++ ["update", "update/current.json"]) ∧
    (∀ r ∈ prepare_records env state,
      r.uid = 1000 ∧ r.gid = 1000 ∧ r.mtime = 0 ∧ r.uname = "renpy" ∧ r.gname = "renpy" ∧
      (r.isdir = true → r.size = 0) ∧
      (r.isdir = true ↔ r.name ∈ "update" :: state.directories) ∧
      r.mode = (if r.isdir = true ∨ r.name ∈ state.xbit then 0o777 else 0o666)) := by
  have hf : ∀ name, (match prepare_record_of env state name with
      | some r => r.name = name ∧ prepare_emittable env state name = true
      | none => prepare_emittable env state name = false) := by
    intro name
    rw [prepare_record_of]
    by_cases hd : (("update" :: state.directories).contains name) = true
    · rw [if_pos hd]
      refine ⟨rfl, ?_⟩
      simp only [prepare_emittable]
      rw [hd, Bool.true_or]
    · rw [if_neg hd]
      rcases hdisk : env.disk (path env name) with _ | sz | _
      · simp only [prepare_emittable, hdisk]
        rw [Bool.not_eq_true] at hd
        rw [hd]
        rfl
      · exact ⟨rfl, by simp [prepare_emittable, hdisk]⟩
      · simp only [prepare_emittable, hdisk]
        rw [Bool.not_eq_true] at hd
        rw [hd]
        rfl
  constructor
  · rw [prepare_records,
      filterMap_names (prepare_record_of env state) (prepare_emittable env state) hf
        (prepare_all state),
      prepare_all, List.filter_append]
    congr 1
    have h1 : prepare_emittable env state "update" = true := by
      simp [prepare_emittable]
    have h2 : prepare_emittable env state "update/current.json" = true := by
      obtain ⟨sz, hsz⟩ := hreg
      simp [prepare_emittable, hsz]
    simp [List.filter_cons, h1, h2]
  · intro r hr
    rw [prepare_records, List.mem_filterMap] at hr
    obtain ⟨name, hmem, hfr⟩ := hr
    rw [prepare_record_of] at hfr
    by_cases hd : (("update" :: state.directories).contains name) = true
    · rw [if_pos hd] at hfr
      injection hfr with hfr
      subst hfr
      have hdm : name ∈ "update" :: state.directories := List.elem_iff.mp hd
      refine ⟨rfl, rfl, rfl, rfl, rfl, fun _ => rfl, ?_, ?_⟩
      · simpa using hdm
      · show (if (state.xbit.contains name ||
            ("update" :: state.directories).contains name) = true then (0o777 : Nat)
          else 0o666) = if true = true ∨ name ∈ state.xbit then 0o777 else 0o666
        simp [hd, Bool.or_true]
        intro hx hne
        rcases List.mem_cons.mp hdm with h | h
        · exact absurd h hne
        · exact h
    · rw [if_neg hd] at hfr
      rcases hdisk : env.disk (path env name) with _ | sz | _ <;> rw [hdisk] at hfr
      · cases hfr
      · injection hfr with hfr
        subst hfr
        have hdm : name ∉ "update" :: state.directories := by
          intro hmm
          exact hd (List.elem_iff.mpr hmm)
        refine ⟨rfl, rfl, rfl, rfl, rfl, by intro hcon; simp at hcon, ?_, ?_⟩
        · constructor
          · intro hcon
            simp at hcon
          · intro hmm
            exact absurd hmm hdm
        · show (if (state.xbit.contains name ||
              ("update" :: state.directories).contains name) = true then (0o777 : Nat)
            else 0o666) = if false = true ∨ name ∈ state.xbit then 0o777 else 0o666
          rw [Bool.not_eq_true] at hd
          simp only [hd, Bool.or_false]
          by_cases hx : name ∈ state.xbit
          · rw [if_pos (List.elem_iff.mpr hx), if_pos (Or.inr hx)]
          · rw [if_neg (fun hc => hx (List.elem_iff.mp hc)),
              if_neg (fun hc => hc.elim (fun h2 => Bool.noConfusion h2) hx)]
      · cases hfr

/-- Witness for C8 at a concrete entry and disk. -/
theorem prepare_records_canonical_witness :
    envC8.disk (path envC8 "update/current.json") = FileStat.regular 11 ∧
    (prepare_records envC8 entryC8).map (fun r => r.name) =
      (pysorted (entryC8.files ++ entryC8.directories)).filter
        (prepare_emittable envC8 entryC8) ++ ["update", "update/current.json"] :=
  ⟨by decide, (prepare_records_canonical envC8 entryC8 ⟨11, by decide⟩).1⟩

/-- C9 counterexample: on a concrete session the reported `progress`
decreases while `state` is unchanged (`PREPARING`): the per-stage
nondecreasing property fails on the code because `progress` is reset to
0.0 *before* each state transition and at each module boundary. -/
theorem progress_monotonic_counterexample :
    progress_ok (run envNoOut).events none = false ∧
    Ev.setState "PREPARING" ∈ (run envNoOut).events := by
  exact ⟨by decide, by decide⟩

/-- C9 amended: within the `prepare` loop of a single module the
reported progress values `i / len(all)` are nondecreasing; resets occur
at module boundaries and just before stage transitions (while `state`
still holds the previous stage), not only at stage changes. -/
theorem progress_monotonic_per_module (env : Env) (st : UpdSt) (module : String)
    (state : ModEntry) (h : alookup env.current_state module = some state) :
    (∃ st', prepare env st module = .ok st' ∧
      st'.events = st.events ++ [.write (update_filename env module false)] ++
        (prepare_progress state).map (fun q => Ev.setProgress (some q))) ∧
    List.Chain' (fun a b => a.le b = true) (prepare_progress state) := by
  obtain ⟨st', hok, _, _, _, hev⟩ := prepare_eval env st module state h
  refine ⟨⟨st', hok, hev⟩, ?_⟩
  rw [prepare_progress, List.chain'_map]
  rcases hn : (prepare_all state).length with _ | k
  · simp
  · rw [List.chain'_range_succ]
    intro i hi
    rw [Frac.le, decide_eq_true_eq]
    show (i : Int) * ((k + 1 : Nat) : Int) ≤ ((i + 1 : Nat) : Int) * ((k + 1 : Nat) : Int)
    have hle : (i : Int) ≤ ((i + 1 : Nat) : Int) := by push_cast; omega
    have hnn : (0 : Int) ≤ ((k + 1 : Nat) : Int) := by positivity
    exact mul_le_mul_of_nonneg_right hle hnn

/-- Witness for the amended C9. -/
theorem progress_monotonic_per_module_witness :
    alookup env1.current_state "m" = some entryOld ∧
    List.Chain' (fun a b => a.le b = true) (prepare_progress entryOld) :=
  ⟨by decide, (progress_monotonic_per_module env1 init_st "m" entryOld (by decide)).2⟩

/-- C10: when module `m`'s downloaded archive has no
`update/current.json` member, `unpack(m)` completes without raising,
`new_state[m]` keeps the old installed entry, and the session still
reaches `DONE` and persists that stale entry to `update/current.json`:
nothing detects the missing authoritative snapshot. -/
theorem missing_current_json_silent (env : Env) (m : String)
    (hce : env.current_exists = true) (hcw : env.can_write = true)
    (hlog : env.log_ok = true) (hproc : env.proceeded = true)
    (hne : check_versions env.force env.current_state env.updates ≠ [])
    (hm : m ∈ check_versions env.force env.current_state env.updates)
    (hdl : ∀ x ∈ check_versions env.force env.current_state env.updates,
      dl_ok env x = true)
    (hup : ∀ x ∈ check_versions env.force env.current_state env.updates,
      unpack_ok env x = true)
    (hnone : cjson_count env m = 0) :
    (∀ st : UpdSt, ∃ st', unpack env st m = .ok st' ∧ st'.new_state = st.new_state) ∧
    (run env).state = "DONE" ∧
    (∃ ns, (run env).saved = some ns ∧ alookup ns m = alookup env.current_state m) := by
  have hpay := cjson_payload_none env m hnone
  constructor
  · intro st
    obtain ⟨st', h1, _, _, h4⟩ := unpack_eval env st m (hup m hm)
    refine ⟨st', h1, ?_⟩
    rw [h4, hpay]
  · obtain ⟨h1, h2, h3, h4⟩ := run_done env hce hcw hlog hproc hne hdl hup
    refine ⟨h1, merged env _, h3, ?_⟩
    exact merged_fold_lookup_none env m hpay
      (check_versions env.force env.current_state env.updates) env.current_state

/-- Witness for C10 at the concrete no-payload environment. -/
theorem missing_current_json_silent_witness :
    cjson_count envNoCjson "m" = 0 ∧
    (run envNoCjson).state = "DONE" := by
  refine ⟨by decide, ?_⟩
  have h := missing_current_json_silent envNoCjson "m" rfl rfl rfl rfl (by decide)
    (by decide)
    (by
      intro x hx
      rw [show check_versions envNoCjson.force envNoCjson.current_state
        envNoCjson.updates = ["m"] from by decide] at hx
      rw [List.mem_singleton] at hx
      subst hx
      decide)
    (by
      intro x hx
      rw [show check_versions envNoCjson.force envNoCjson.current_state
        envNoCjson.updates = ["m"] from by decide] at hx
      rw [List.mem_singleton] at hx
      subst hx
      decide)
    (by decide)
  exact h.2.1

end Updater
